import Mathlib

/-!
Verification development for the `epub` library (`epub.ts`).

The library parses an EPUB archive (mimetype check, container pointer,
OPF package document, NCX navigation document) into a book model
(metadata / manifest / spine / flow / toc) and renders chapters as
sanitized HTML with resource references rewritten.

The embedding below translates the TypeScript source into executable
Lean definitions:

* JS strings are modelled as `String` / `List Char`;
* the regular-expression rewrites of `getChapter` are modelled by
  deterministic matcher functions that mirror the exact backtracking
  behaviour of the JS regex engine on the source patterns;
* JS objects shared by reference (manifest items mutated by
  `walkNavMap`) are modelled by an explicit store (`Manifest`) plus
  references (`TocRef`), with mutation as store update;
* asynchronous archive reads and the external XML parser are modelled
  as oracle functions (`Zip.read`, `… → Except String …`), matching
  the spec's "external collaborator" boundary;
* `Number(...)` is modelled for decimal numerals (optional sign,
  optional fraction); hex / exponent / `Infinity` forms are outside
  the model.
-/

/-! ## Character classes (JS regex `\s`, `\w`, value/terminator class) -/

/-- JS whitespace (`\s`, and the character set trimmed by `String.trim`):
space, tab, line feed, carriage return, vertical tab, form feed,
no-break space.  (Exotic Unicode space separators are outside the model.) -/
def isWs (c : Char) : Bool :=
  c = ' ' || c = '\t' || c = '\n' || c = '\r' || c = '\x0b' || c = '\x0c' || c = '\u00A0'

/-- JS word character (`\w`): ASCII letters, digits, underscore. -/
def isWord (c : Char) : Bool :=
  ('a' ≤ c && c ≤ 'z') || ('A' ≤ c && c ≤ 'Z') || ('0' ≤ c && c ≤ '9') || c = '_'

/-- The single-quote character (written numerically). -/
def squote : Char := Char.ofNat 39

/-- Membership in the character class `["'\s>]` — exactly the complement
of the value class `[^"'\s>]` used by the attribute-rewriting regexes. -/
def isTermCh (c : Char) : Bool :=
  c = '"' || c = squote || isWs c || c = '>'

/-- Characters matched by the JS regex dot `.` (anything except line
terminators). -/
def dotChar (c : Char) : Bool :=
  !(c = '\n' || c = '\r' || c = '\u2028' || c = '\u2029')

/-! ## JS string helpers -/

/-- JS `String.prototype.trim` on a character list. -/
def jsTrim (l : List Char) : List Char :=
  ((l.dropWhile isWs).reverse.dropWhile isWs).reverse

/-- JS `String.prototype.trim`. -/
def jsTrimStr (s : String) : String :=
  String.mk (jsTrim s.data)

/-- JS `String.prototype.toLowerCase` (ASCII model). -/
def strLower (s : String) : String :=
  String.mk (s.data.map Char.toLower)

/-- JS `path.concat([b]).join("/")`. -/
def joinPath (path : List String) (b : String) : String :=
  String.intercalate "/" (path ++ [b])

/-- JS `s.split("/")` followed by `.pop()`: the directory components of
an archive path. -/
def dirOf (s : String) : List String :=
  (s.splitOn "/").dropLast

/-- JS `s.split("#")` on a character list (single-character separator). -/
def splitHash : List Char → List (List Char)
  | [] => [[]]
  | c :: r =>
    if c = '#' then [] :: splitHash r
    else
      match splitHash r with
      | h :: t => (c :: h) :: t
      | [] => [[c]]

/-- JS `s.split("#")[0]` of a string (a split result is never empty). -/
def hashStem (s : String) : String :=
  String.mk ((splitHash s.data).headD [])

/-- JS `substring(0, p.length) === p`. -/
def leadsWith (p s : String) : Bool :=
  decide (s.data.take p.data.length = p.data)

/-! ## JS `Number(...)` on strings (decimal numerals) -/

/-- Numeric value of a digit run. -/
def digitsNat (ds : List Char) : Nat :=
  ds.foldl (fun a c => a * 10 + (c.toNat - 48)) 0

/-- Value of the fractional digit run `fs` (i.e. `0.fs`). -/
def fracVal (fs : List Char) : Rat :=
  (digitsNat fs : Rat) / ((10 : Rat) ^ fs.length)

/-- Unsigned decimal numeral: `digits[.digits]` or `.digits`, consuming
the whole input; `none` models NaN. -/
def decCore (l : List Char) : Option Rat :=
  let ds := l.takeWhile Char.isDigit
  let r := l.dropWhile Char.isDigit
  match r with
  | [] => if ds = [] then none else some ((digitsNat ds : Nat) : Rat)
  | '.' :: fr =>
    let fs := fr.takeWhile Char.isDigit
    let r2 := fr.dropWhile Char.isDigit
    if r2 = [] && !(ds = [] && fs = []) then
      some (((digitsNat ds : Nat) : Rat) + fracVal fs)
    else none
  | _ => none

/-- JS `Number(s)` for decimal numerals: trimmed; empty is `0`;
optionally signed; `none` models NaN. -/
def jsNumber (s : String) : Option Rat :=
  match jsTrim s.data with
  | [] => some 0
  | '+' :: r => decCore r
  | '-' :: r => (decCore r).map Neg.neg
  | l => decCore l

/-! ## Data model: manifest items and the manifest store

A JS manifest item is an object holding the declared attributes plus —
after `walkNavMap` ran — `title` / `order` / `level` fields assigned in
place.  Absent string fields are modelled as `""`; the `order` of a JS
object that never received one is modelled as `0`. -/

structure Item where
  id : String := ""
  href : String := ""
  mediaType : String := ""
  title : String := ""
  order : Rat := 0
  level : Nat := 0
  deriving Repr, DecidableEq

/-- The manifest: insertion-ordered mapping from manifest id to item.
Keys are unique in well-formed input; lookup takes the first match. -/
abbrev Manifest := List (String × Item)

/-- JS `this.manifest[k]`. -/
def lookupM (m : Manifest) (k : String) : Option Item :=
  (List.find? (fun kv => kv.1 = k) m).map (·.2)

/-- JS `this.manifest[k] = it` (overwrite in place, insert at the end
otherwise — JS object insertion-order semantics). -/
def setM (m : Manifest) (k : String) (it : Item) : Manifest :=
  if List.any m (fun kv => kv.1 = k) then
    List.map (fun kv => if kv.1 = k then (k, it) else kv) m
  else m ++ [(k, it)]

/-- In-place assignment `element.title = …; element.order = …;
element.level = …` performed by `walkNavMap` on the shared manifest
object stored under `key` (no-op when the key is absent). -/
def assignM (m : Manifest) (key : String) (title : String) (order : Rat) (level : Nat) : Manifest :=
  List.map (fun kv =>
    if kv.1 = key then
      (kv.1, { kv.2 with title := title, order := order, level := level })
    else kv) m

/-- First manifest entry whose `href` equals `img` (the `src`-rewrite
lookup loop of `getChapter`). -/
def findByHref (m : Manifest) (img : String) : Option Item :=
  (List.find? (fun kv => kv.2.href = img) m).map (·.2)

/-- First manifest entry whose fragment-stripped `href` equals `link`
(the `href`-rewrite lookup loop of `getChapter`). -/
def findByHrefStem (m : Manifest) (link : String) : Option Item :=
  (List.find? (fun kv => hashStem kv.2.href = link) m).map (·.2)

/-- Reverse index `idList[manifest[key].href] = key` built by
`_parseTOC`; on duplicate hrefs the last key wins (JS object overwrite
while iterating keys in insertion order). -/
def idListOf (m : Manifest) (href : String) : Option String :=
  (List.find? (fun kv => kv.2.href = href) m.reverse).map (·.1)

/-! ## Deterministic matchers for the `getChapter` regexes

Each matcher decides whether the regex matches at the head of the
input and returns the capture groups plus the rest of the input
(where the global scan resumes).  The backtracking of the JS engine
on these particular patterns is deterministic and is reproduced
exactly:

* `\w+` / `\s*` are greedy, and a shorter take can only succeed for
  the second `\s*` before the value (giving back one whitespace
  character, which then matches the terminator class);
* `["']?` is greedy, falling back to the empty take when no
  terminator follows the value (the quote itself then terminates);
* `[^"'\s>]*?` is lazy: the shortest run of value characters followed
  by a terminator-class character. -/

/-- Lazy `[^"'\s>]*?["'\s>]`: value characters up to and including the
first terminator-class character.  Returns (value, terminator, rest). -/
def lazyVal : List Char → Option (List Char × Char × List Char)
  | [] => none
  | c :: r =>
    if isTermCh c then some ([], c, r)
    else
      match lazyVal r with
      | some (v, t, rest) => some (c :: v, t, rest)
      | none => none

/-- `\s*["']?[^"'\s>]*?["'\s>]` with JS backtracking.  Returns
(whitespace, quote part, value, terminator, rest). -/
def matchAttrTail (l : List Char) : Option (List Char × List Char × List Char × Char × List Char) :=
  let w2 := l.takeWhile isWs
  let r3 := l.dropWhile isWs
  match r3 with
  | q :: r4 =>
    if q = '"' || q = squote then
      match lazyVal r4 with
      | some (v, t0, rest) => some (w2, [q], v, t0, rest)
      | none => some (w2, [], [], q, r4)
    else
      match lazyVal r3 with
      | some (v, t0, rest) => some (w2, [], v, t0, rest)
      | none =>
        if w2 = [] then none
        else some (w2.dropLast, [], [], w2.getLastD ' ', r3)
  | [] =>
    if w2 = [] then none
    else some (w2.dropLast, [], [], w2.getLastD ' ', [])

/-- `\s*=\s*["']?[^"'\s>]*?["'\s>]`.  Returns (whitespace before `=`,
whitespace after `=`, quote part, value, terminator, rest). -/
def matchEqTail (l : List Char) :
    Option (List Char × List Char × List Char × List Char × Char × List Char) :=
  match l.dropWhile isWs with
  | '=' :: r2 =>
    match matchAttrTail r2 with
    | some (w2, q, v, t0, rest) => some (l.takeWhile isWs, w2, q, v, t0, rest)
    | none => none
  | _ => none

/-- Head match of `(\s)(on\w+)(\s*=\s*["']?[^"'\s>]*?["'\s>])` (note:
no `i` flag — the literal `on` is lowercase only).  Returns the three
capture groups and the rest. -/
def matchOnAt : List Char → Option (Char × List Char × List Char × List Char)
  | a :: 'o' :: 'n' :: r =>
    if isWs a && !(r.takeWhile isWord).isEmpty then
      match matchEqTail (r.dropWhile isWord) with
      | some (w1, w2, q, v, t0, rest) =>
        some (a, 'o' :: 'n' :: r.takeWhile isWord, w1 ++ '=' :: (w2 ++ q ++ v ++ [t0]), rest)
      | none => none
    else none
  | _ => none

/-- Head match of `(\ssrc\s*=\s*["']?)([^"'\s>]*?)(["'\s>])`.  Returns
(group a, value, terminator, rest). -/
def matchSrcAt : List Char → Option (List Char × List Char × Char × List Char)
  | a :: 's' :: 'r' :: 'c' :: r =>
    if isWs a then
      match matchEqTail r with
      | some (w1, w2, q, v, t0, rest) =>
        some (a :: 's' :: 'r' :: 'c' :: (w1 ++ '=' :: (w2 ++ q)), v, t0, rest)
      | none => none
    else none
  | _ => none

/-- Head match of `(\shref\s*=\s*["']?)([^"'\s>]*?)(["'\s>])`.  Returns
(group a, value, terminator, rest). -/
def matchHrefAt : List Char → Option (List Char × List Char × Char × List Char)
  | a :: 'h' :: 'r' :: 'e' :: 'f' :: r =>
    if isWs a then
      match matchEqTail r with
      | some (w1, w2, q, v, t0, rest) =>
        some (a :: 'h' :: 'r' :: 'e' :: 'f' :: (w1 ++ '=' :: (w2 ++ q)), v, t0, rest)
      | none => none
    else none
  | _ => none

/-! ## Case-insensitive literal matching and tag-block removal -/

/-- Case-insensitive literal match (the pattern is lowercase); returns
the rest of the input on success. -/
def matchCI : List Char → List Char → Option (List Char)
  | [], l => some l
  | _ :: _, [] => none
  | p :: ps, c :: cs => if c.toLower = p then matchCI ps cs else none

/-- Lazy `[^>]*?>`: consume up to and including the first `>`. -/
def lazyToGt : List Char → Option (List Char)
  | [] => none
  | c :: r => if c = '>' then some r else lazyToGt r

/-- Closing tag `</tag[^>]*?>` at the head (pattern is the lowercase
`"</tag"` character list). -/
def closeAt (close : List Char) (l : List Char) : Option (List Char) :=
  (matchCI close l).bind lazyToGt

/-- Lazy `(.*?)` followed by the closing tag: scan to the first
position where the closing tag matches; dot does not cross line
terminators.  Returns the rest after the closing tag. -/
def scanToClose (close : List Char) : List Char → Option (List Char)
  | [] => none
  | c :: r =>
    match closeAt close (c :: r) with
    | some rest => some rest
    | none => if dotChar c then scanToClose close r else none

/-- Head match of `<tag[^>]*?>(.*?)</tag[^>]*?>` (flags `gi`); the
whole block is removed, so only the rest is returned. -/
def stepTagRemove (tag : String) (l : List Char) : Option (List Char × List Char) :=
  match matchCI ("<" ++ tag).data l with
  | none => none
  | some l2 =>
    match lazyToGt l2 with
    | none => none
    | some l3 =>
      match scanToClose ("</" ++ tag).data l3 with
      | some rest => some ([], rest)
      | none => none

/-! ## Global regex replacement driver

JS `String.prototype.replace` with a `g` regex: scan left to right;
at each position try the pattern; on a match emit the rewrite and
resume after the match.  The driver is fuelled (each match consumes at
least one character, so `l.length` fuel always suffices). -/

/-- Fuelled global-replace scan. -/
def replaceAllF (step : List Char → Option (List Char × List Char)) :
    Nat → List Char → List Char
  | 0, l => l
  | _ + 1, [] => []
  | n + 1, c :: r =>
    match step (c :: r) with
    | some (rep, rest) => rep ++ replaceAllF step n rest
    | none => c :: replaceAllF step n r

/-- JS `s.replace(re, cb)` for a global regex whose per-position match
and rewrite are given by `step`. -/
def replaceAll (step : List Char → Option (List Char × List Char)) (l : List Char) : List Char :=
  replaceAllF step l.length l

/-! ## The `getChapter` rewrite steps -/

/-- Rewrite step for `(\s)(on\w+)(…)` with replacement
`a + "skip-" + b + c`. -/
def stepOn (l : List Char) : Option (List Char × List Char) :=
  match matchOnAt l with
  | some (a, b, cg, rest) => some (a :: ("skip-".data ++ b ++ cg), rest)
  | none => none

/-- Rewrite step for `(\ssrc\s*=\s*["']?)([^"'\s>]*?)(["'\s>])`:
resolve the value against the package directory, look the resolved
path up by manifest href; on a hit rewrite to
`a + imageroot + id + "/" + img + c`, otherwise replace the whole
match by the empty string. -/
def stepSrc (m : Manifest) (path : List String) (imageroot : String)
    (l : List Char) : Option (List Char × List Char) :=
  match matchSrcAt l with
  | some (a, v, t0, rest) =>
    let img := jsTrimStr (joinPath path (String.mk v))
    match findByHref m img with
    | some it => some (a ++ (imageroot ++ it.id ++ "/" ++ img).data ++ [t0], rest)
    | none => some ([], rest)
  | none => none

/-- Rewrite step for `(\shref\s*=\s*["']?)([^"'\s>]*?)(["'\s>])`:
split off the fragment, resolve the head against the package
directory, look it up by fragment-stripped manifest href; on a hit
rewrite to `a + linkroot + id + "/" + link + c` (fragment
re-attached), otherwise leave the match unchanged. -/
def stepHref (m : Manifest) (path : List String) (linkroot : String)
    (l : List Char) : Option (List Char × List Char) :=
  match matchHrefAt l with
  | some (a, v, t0, rest) =>
    let linkparts := if v = [] then [] else splitHash v
    let link0 :=
      match linkparts with
      | [] => ""
      | p :: _ => jsTrimStr (joinPath path (String.mk p))
    let fragParts := linkparts.tail
    let link :=
      if fragParts = [] then link0
      else link0 ++ "#" ++ String.intercalate "#" (fragParts.map String.mk)
    match findByHrefStem m link0 with
    | some it => some (a ++ (linkroot ++ it.id ++ "/" ++ link).data ++ [t0], rest)
    | none => some (a ++ v ++ [t0], rest)
  | none => none

/-! ## Body extraction and line-break handling -/

/-- Greedy `(.*)` followed by `</body[^>]*?>`: the longest dot-run
after which the closing tag matches; returns the captured content. -/
def bodyGreedy (close : List Char) : List Char → Option (List Char)
  | [] => none
  | c :: r =>
    let deeper := if dotChar c then (bodyGreedy close r).map (fun d => c :: d) else none
    match deeper with
    | some d => some d
    | none =>
      match closeAt close (c :: r) with
      | some _ => some []
      | none => none

/-- Full match of `<body[^>]*?>(.*)</body[^>]*?>` starting at the head;
returns the captured inner content. -/
def bodyContentAt (l : List Char) : Option (List Char) :=
  match matchCI "<body".data l with
  | none => none
  | some l2 =>
    match lazyToGt l2 with
    | none => none
    | some l3 => bodyGreedy "</body".data l3

/-- First position where the body pattern fully matches (non-global
`replace`: leftmost match only). -/
def bodyScan : List Char → Option (List Char)
  | [] => none
  | c :: r =>
    match bodyContentAt (c :: r) with
    | some d => some d
    | none => bodyScan r

/-- Step 2 of `getChapter`: if a `<body>…</body>` region matches, keep
only its trimmed inner content (the replace callback assigns
`s = d.trim()` and discards the replace result); otherwise the text
passes through unchanged. -/
def keepBody (l : List Char) : List Char :=
  match bodyScan l with
  | some d => jsTrim d
  | none => l

/-- Step 1 of `getChapter`: `s.replace(/\r?\n/g, "\u0000")`. -/
def collapseLinebreaks : List Char → List Char
  | [] => []
  | '\r' :: '\n' :: r => '\u0000' :: collapseLinebreaks r
  | '\n' :: r => '\u0000' :: collapseLinebreaks r
  | c :: r => c :: collapseLinebreaks r

/-- Step 8 of `getChapter`: `s.replace(/\u0000/g, "\n")`. -/
def restoreLinebreaks (l : List Char) : List Char :=
  l.map (fun c => if c = '\u0000' then '\n' else c)

/-! ## The chapter renderer -/

/-- The transformation pipeline of `getChapter` (steps 1–8, in source
order), applied to the raw chapter text.  `path` is the package
document's directory. -/
def getChapterText (m : Manifest) (path : List String)
    (imageroot linkroot : String) (raw : String) : String :=
  let s0 := collapseLinebreaks raw.data
  let s1 := keepBody s0
  let s2 := replaceAll (stepTagRemove "script") s1
  let s3 := replaceAll (stepTagRemove "style") s2
  let s4 := replaceAll stepOn s3
  let s5 := replaceAll (stepSrc m path imageroot) s4
  let s6 := replaceAll (stepHref m path linkroot) s5
  String.mk (jsTrim (restoreLinebreaks s6))

/-- The archive accessor: entry names plus named-entry reads
(`none` models a read failure). -/
structure Zip where
  names : List String
  read : String → Option String

/-- `getChapterRaw`: manifest lookup, media-type gate (XHTML or SVG
only), then the archive read decoded as text. -/
def getChapterRaw (m : Manifest) (zip : Zip) (id : String) : Except String String :=
  match lookupM m id with
  | some it =>
    if it.mediaType ≠ "application/xhtml+xml" && it.mediaType ≠ "image/svg+xml" then
      Except.error "Invalid mime type for chapter"
    else
      match zip.read it.href with
      | none => Except.error "Reading archive failed"
      | some data => Except.ok data
  | none => Except.error "File not found"

/-- `getChapter`: raw retrieval followed by the rewrite pipeline. -/
def getChapter (m : Manifest) (zip : Zip) (rootFile : String)
    (imageroot linkroot : String) (id : String) : Except String String :=
  (getChapterRaw m zip id).map (getChapterText m (dirOf rootFile) imageroot linkroot)

/-! ## Navigation tree (`walkNavMap`)

A nav-point carries an optional `navLabel` (whose `text` may or may not
be a string — `Option (Option String)`), optional `playOrder` and `id`
attributes, an optional `content/@src`, and child nav-points.
`NavList` is a mutual list type so that the walk is a structural
recursion (and hence computes by kernel reduction). -/

mutual

inductive NavPoint where
  | mk (navLabel : Option (Option String)) (playOrder : Option String)
       (attrId : Option String) (contentSrc : Option String)
       (children : NavList)

inductive NavList where
  | nil
  | cons (hd : NavPoint) (tl : NavList)

end

/-- A TOC entry as produced by the walk: either the shared manifest
object (a reference into the store) or a standalone element. -/
inductive TocRef where
  | manifestRef (key : String)
  | standalone (e : Item)
  deriving Repr, DecidableEq

/-- Title computed from a nav-point's label: the trimmed text when the
text is a string, `""` otherwise. -/
def npTitle : NavPoint → String
  | .mk (some (some s)) _ _ _ _ => jsTrimStr s
  | .mk _ _ _ _ _ => ""

/-- Order computed from `Number(attrs?.playOrder || 0)` with the NaN
check (`isNaN(order)` resets to 0). -/
def jsOrder (po : Option String) : Rat :=
  match po with
  | none => 0
  | some s => if s = "" then 0 else (jsNumber s).getD 0

/-- Order of a nav-point. -/
def npOrder : NavPoint → Rat
  | .mk _ po _ _ _ => jsOrder po

/-- Trimmed `content/@src` of a nav-point (`""` when absent). -/
def npHref0 : NavPoint → String
  | .mk _ _ _ (some s) _ => jsTrimStr s
  | .mk _ _ _ none _ => ""

/-- The standalone TOC element built for a nav-point whose resolved
href has no manifest entry. -/
def standaloneOf (np : NavPoint) (path : List String) (level : Nat) : Item :=
  match np with
  | .mk _ _ aid _ _ =>
    { id := jsTrimStr (aid.getD ""), href := joinPath path (npHref0 np),
      mediaType := "", title := npTitle np, order := npOrder np, level := level }

/-- The in-place field assignment done on a shared manifest item. -/
def itAssign (it : Item) (np : NavPoint) (level : Nat) : Item :=
  { it with title := npTitle np, order := npOrder np, level := level }

/-- The per-item body of the `walkNavMap` loop: possibly contribute an
entry (and possibly mutate the shared manifest item). -/
def navSelf (np : NavPoint) (path : List String) (idList : String → Option String)
    (level : Nat) (m : Manifest) : List TocRef × Manifest :=
  match np with
  | .mk navLabel _ _ _ _ =>
    match navLabel with
    | none => ([], m)
    | some _ =>
      if npHref0 np = "" then ([], m)
      else
        let href := joinPath path (npHref0 np)
        match idList href with
        | some key => ([TocRef.manifestRef key], assignM m key (npTitle np) (npOrder np) level)
        | none => ([TocRef.standalone (standaloneOf np path level)], m)

/-- `walkNavMap`: depth-first walk of the navigation tree, capped at
nesting level 7 (`if (level > 7) return []`), contributing an entry
per labelled nav-point with a non-empty content reference, children
walked at `level + 1` and appended after the parent. -/
def walkNavMap : NavList → List String → (String → Option String) → Nat → Manifest →
    List TocRef × Manifest
  | .nil, _, _, _, m => ([], m)
  | .cons np tl, path, idList, level, m =>
    if level > 7 then ([], m)
    else
      match np with
      | .mk navLabel po aid src children =>
        let own := navSelf (.mk navLabel po aid src children) path idList level m
        let child := walkNavMap children path idList (level + 1) own.2
        let rest := walkNavMap tl path idList level child.2
        (own.1 ++ child.1 ++ rest.1, rest.2)

/-- Dereference the walk's output against the final store: the `toc`
list observed by callers. -/
def derefToc (m : Manifest) (refs : List TocRef) : List Item :=
  refs.filterMap (fun r =>
    match r with
    | .standalone e => some e
    | .manifestRef k => lookupM m k)

/-- The flattened TOC produced by a walk (entries dereferenced against
the mutated manifest). -/
def walkNavMapToc (br : NavList) (path : List String) (idList : String → Option String)
    (level : Nat) (m : Manifest) : List Item :=
  let r := walkNavMap br path idList level m
  derefToc r.2 r.1

/-- All nav-points of a forest (the walk's possible entry sources). -/
def nlAll : NavList → List NavPoint
  | .nil => []
  | .cons np tl =>
    match np with
    | .mk navLabel po aid src children =>
      NavPoint.mk navLabel po aid src children :: (nlAll children ++ nlAll tl)

/-! ## Package resolution pipeline

The XML Tree Adapter is an external collaborator; each document kind
is modelled by the typed shape the source code probes out of the
generic tree, and the parses themselves are oracle functions
`String → Except String _` passed to the pipeline. -/

/-- Attributes of one `rootfile` declaration in the container. -/
structure RootfileAttrs where
  mediaType : Option String := none
  fullPath : Option String := none

/-- The `rootfiles.rootfile` value: a single node or an array
(`xml2js` collapses a singleton list). `none` inside models a node
without an `@` attribute object. -/
inductive RootfileVal where
  | one (attrs : Option RootfileAttrs)
  | many (rfs : List (Option RootfileAttrs))

/-- Parsed `META-INF/container.xml`: the optional `rootfiles` node
with its optional `rootfile` child. -/
structure ContainerDoc where
  rootfile : Option RootfileVal := none

/-- A qualifying rootfile declaration: media-type is the OEBPS package
type and full-path is present (truthy); yields the lower-cased trimmed
path. -/
def qualifies (rf : RootfileAttrs) : Option String :=
  if rf.mediaType = some "application/oebps-package+xml" then
    match rf.fullPath with
    | some p => if p = "" then none else some (jsTrimStr (strLower p))
    | none => none
  else none

/-- The rootfile-selection branch of `_getRootFiles`: array branch
takes the first qualifying declaration (`Empty rootfile` when none
qualifies or the path trims to empty); single branch demands a
qualifying declaration (`Rootfile in unknown format`). -/
def rootfilePath : RootfileVal → Except String String
  | .many rfs =>
    match rfs.findSome? (fun rf? => rf?.bind qualifies) with
    | some fn => if fn = "" then Except.error "Empty rootfile" else Except.ok fn
    | none => Except.error "Empty rootfile"
  | .one rf? =>
    match rf? with
    | none => Except.error "Rootfile in unknown format"
    | some rf =>
      if rf.mediaType = some "application/oebps-package+xml" then
        match rf.fullPath with
        | some p =>
          if p = "" then Except.error "Rootfile in unknown format"
          else if jsTrimStr (strLower p) = "" then Except.error "Empty rootfile"
          else Except.ok (jsTrimStr (strLower p))
        | none => Except.error "Rootfile in unknown format"
      else Except.error "Rootfile in unknown format"

/-- Case-insensitive search for an archive entry with the given
(lower-case) name — the `name.toLowerCase() === target` loops. -/
def findCI (names : List String) (target : String) : Option String :=
  names.find? (fun n => strLower n = target)

/-- `_open`'s entry-count check (archive opening itself is modelled as
always succeeding — the `Zip` value exists). -/
def openCheck (zip : Zip) : Except String Unit :=
  if zip.names = [] then Except.error "No files in archive" else Except.ok ()

/-- `_checkMimeType`: case-insensitively locate `mimetype`, read it,
lower-case + trim, compare against the fixed EPUB media type. -/
def checkMimeType (zip : Zip) : Except String Unit :=
  match findCI zip.names "mimetype" with
  | none => Except.error "No mimetype file in archive"
  | some name =>
    match zip.read name with
    | none => Except.error ("Entry not found: " ++ name)
    | some data =>
      if jsTrimStr (strLower data) = "application/epub+zip" then Except.ok ()
      else Except.error "Unsupported mime type"

/-- `_getRootFiles`: locate `META-INF/container.xml` case-insensitively,
read it, lower-case + trim, parse, select the rootfile path, then
case-insensitively match that path against the archive entry names. -/
def getRootFiles (zip : Zip) (containerParse : String → Except String ContainerDoc) :
    Except String String :=
  match findCI zip.names "meta-inf/container.xml" with
  | none => Except.error "No container file in archive"
  | some cf =>
    match zip.read cf with
    | none => Except.error ("Entry not found: " ++ cf)
    | some data =>
      match containerParse (jsTrimStr (strLower data)) with
      | Except.error e => Except.error e
      | Except.ok doc =>
        match doc.rootfile with
        | none => Except.error "No rootfiles found"
        | some rv =>
          match rootfilePath rv with
          | Except.error e => Except.error e
          | Except.ok fn =>
            match findCI zip.names fn with
            | some n => Except.ok n
            | none => Except.error "Rootfile not found from archive"

/-- Attributes of one spine `itemref` (`none` models a node without
an attribute object). -/
structure ItemrefAttrs where
  idref : Option String := none

/-- The parsed `spine` node: its `toc` attribute and `itemref` children. -/
structure SpineNode where
  toc : Option String := none
  itemrefs : List (Option ItemrefAttrs) := []

/-- The resolved spine state: the optional navigation-document item and
the ordered contents (the Flow). -/
structure SpineSt where
  toc : Option Item := none
  contents : List Item := []
  deriving Repr, DecidableEq

/-- Resolution of one `itemref`: requires an attribute object with an
`idref` that exists in the manifest. -/
def resolveItemref (m : Manifest) (r : Option ItemrefAttrs) : Option Item :=
  r.bind (fun a => a.idref.bind (fun i => lookupM m i))

/-- The `itemref` loop of `_parseSpine`: append each resolvable entry,
silently skip the rest. -/
def spineContents (m : Manifest) : List (Option ItemrefAttrs) → List Item
  | [] => []
  | r :: rs =>
    match resolveItemref m r with
    | some it => it :: spineContents m rs
    | none => spineContents m rs

/-- `_parseSpine`: resolve the `toc` attribute (kept only when truthy
and present in the manifest) and build the Flow. -/
def parseSpine (m : Manifest) (node : SpineNode) : SpineSt :=
  { toc := node.toc.bind (fun t => if t = "" then none else lookupM m t),
    contents := spineContents m node.itemrefs }

/-- `_parseManifest`: each item's href is prefixed with the package
document's directory unless it already starts with it; items are
stored under their id. -/
def parseManifest (rootFile : String) (items : List Item) : Manifest :=
  let path := dirOf rootFile
  let pathStr := String.intercalate "/" path
  items.foldl (fun m it =>
    let href :=
      if it.href ≠ "" && !(leadsWith pathStr it.href) then joinPath path it.href
      else it.href
    setM m it.id { it with href := href }) []

/-- The parsed package document: declared version, manifest `item`
children, spine node.  (Metadata and guide parsing are not involved in
any claim and are omitted from the model.) -/
structure PackageDoc where
  version : Option String := none
  manifest : Option (List Item) := none
  spine : Option SpineNode := none

/-- The parsed navigation document: the `navMap.navPoint` forest when
present. -/
structure NavDoc where
  navPoints : Option NavList := none

/-- The book state observable through the facade (fields involved in
the claims; metadata/guide are omitted). -/
structure St where
  version : String := "2.0"
  manifest : Manifest := []
  spine : SpineSt := {}
  flow : List Item := []
  toc : List Item := []
  rootFile : Option String := none

/-- The field resets performed at the start of `parse()` (`version` is
not reset by the source). -/
def resetSt (st : St) : St :=
  { st with manifest := [], spine := {}, flow := [], toc := [], rootFile := none }

/-- `_parseRootFile`: record the version (default `"2.0"` when absent
or empty), then dispatch to the manifest and spine parsers when those
children are present (`flow` is set by the spine parser only). -/
def parseRootFile (st : St) (rootFile : String) (doc : PackageDoc) : St :=
  let version :=
    match doc.version with
    | some v => if v = "" then "2.0" else v
    | none => "2.0"
  let m :=
    match doc.manifest with
    | some items => parseManifest rootFile items
    | none => st.manifest
  match doc.spine with
  | some node =>
    let sp := parseSpine m node
    { st with version := version, manifest := m, spine := sp, flow := sp.contents }
  | none => { st with version := version, manifest := m }

/-- `_parseTOC`: read the declared navigation document, parse it
(wrapping a parse failure in the TOC-specific message), and walk the
nav map; returns the flattened TOC and the (mutated) manifest. -/
def parseTOCrun (zip : Zip) (navParse : String → Except String NavDoc)
    (m : Manifest) (tocItem : Item) : Except String (List Item × Manifest) :=
  let tocHref := tocItem.href
  let path := dirOf tocHref
  match zip.read tocHref with
  | none => Except.error ("Entry not found: " ++ tocHref)
  | some xml =>
    match navParse xml with
    | Except.error e => Except.error ("Parsing container XML failed in TOC: " ++ e)
    | Except.ok nd =>
      match nd.navPoints with
      | some branch =>
        let r := walkNavMap branch path (idListOf m) 0 m
        Except.ok (derefToc r.2 r.1, r.2)
      | none => Except.ok ([], m)

/-- The full `parse()` / `_parse()` sequence: reset the entity fields,
then mimetype check → container/rootfile resolution → package document
parse and dispatch → optional TOC resolution; the first failure aborts
with that stage's error and leaves the state as built so far. -/
def parseEpub (zip : Zip) (containerParse : String → Except String ContainerDoc)
    (packageParse : String → Except String PackageDoc)
    (navParse : String → Except String NavDoc) (st0 : St) :
    St × Except String Unit :=
  let st := resetSt st0
  match openCheck zip with
  | Except.error e => (st, Except.error e)
  | Except.ok _ =>
    match checkMimeType zip with
    | Except.error e => (st, Except.error e)
    | Except.ok _ =>
      match getRootFiles zip containerParse with
      | Except.error e => (st, Except.error e)
      | Except.ok rf =>
        let st := { st with rootFile := some rf }
        match zip.read rf with
        | none => (st, Except.error ("Entry not found: " ++ rf))
        | some xml =>
          match packageParse xml with
          | Except.error e => (st, Except.error e)
          | Except.ok doc =>
            let st := parseRootFile st rf doc
            match st.spine.toc with
            | some tocItem =>
              match parseTOCrun zip navParse st.manifest tocItem with
              | Except.error e => (st, Except.error e)
              | Except.ok r => ({ st with toc := r.1, manifest := r.2 }, Except.ok ())
            | none => (st, Except.ok ())

/-- A navigation chain `n` levels deep (each node labelled and with a
content reference). -/
def chainNP : Nat → NavList
  | 0 => .nil
  | n + 1 => .cons (.mk (some (some "t")) none none (some "c.x") (chainNP n)) .nil

/-! ## Helper lemmas: list scanning -/

theorem takeWhile_all_append {p : Char → Bool} (w : List Char) (d : Char) (r : List Char)
    (hw : ∀ c ∈ w, p c = true) (hd : p d = false) :
    (w ++ d :: r).takeWhile p = w := by
  induction w with
  | nil => simp [List.takeWhile, hd]
  | cons c cs ih =>
    have hc : p c = true := hw c (by simp)
    simp only [List.cons_append, List.takeWhile_cons, hc]
    simp [ih (fun x hx => hw x (by simp [hx]))]

theorem dropWhile_all_append {p : Char → Bool} (w : List Char) (d : Char) (r : List Char)
    (hw : ∀ c ∈ w, p c = true) (hd : p d = false) :
    (w ++ d :: r).dropWhile p = d :: r := by
  induction w with
  | nil => simp [List.dropWhile, hd]
  | cons c cs ih =>
    have hc : p c = true := hw c (by simp)
    simp only [List.cons_append, List.dropWhile_cons, hc]
    simp [ih (fun x hx => hw x (by simp [hx]))]

/-! ## Helper lemmas: matcher soundness and computation -/

theorem lazyVal_sound : ∀ {l v t0 rest}, lazyVal l = some (v, t0, rest) →
    l = v ++ t0 :: rest ∧ isTermCh t0 = true := by
  intro l
  induction l with
  | nil => intro v t0 rest h; simp [lazyVal] at h
  | cons c r ih =>
    intro v t0 rest h
    by_cases hc : isTermCh c
    · simp [lazyVal, hc] at h
      obtain ⟨hv, ht, hr⟩ := h
      subst hv; subst ht; subst hr; simp [hc]
    · simp only [lazyVal, hc, Bool.false_eq_true, if_false] at h
      cases hlv : lazyVal r with
      | none => rw [hlv] at h; simp at h
      | some x =>
        obtain ⟨v', t', rest'⟩ := x
        rw [hlv] at h
        simp at h
        obtain ⟨hv, ht, hr⟩ := h
        obtain ⟨hl, htc⟩ := ih hlv
        subst hv; subst ht; subst hr
        simp [hl, htc]


theorem lazyVal_append (v : List Char) (t0 : Char) (rest : List Char)
    (hv : ∀ c ∈ v, isTermCh c = false) (ht : isTermCh t0 = true) :
    lazyVal (v ++ t0 :: rest) = some (v, t0, rest) := by
  induction v with
  | nil => simp [lazyVal, ht]
  | cons c cs ih =>
    have hc : isTermCh c = false := hv c (by simp)
    simp only [List.cons_append, lazyVal, hc, Bool.false_eq_true, if_false]
    rw [show cs.append (t0 :: rest) = cs ++ t0 :: rest from rfl,
      ih (fun x hx => hv x (by simp [hx]))]

theorem dropLast_getLastD (l : List Char) (h : l ≠ []) :
    l.dropLast ++ [l.getLastD ' '] = l := by
  induction l with
  | nil => exact absurd rfl h
  | cons c cs ih =>
    cases cs with
    | nil => simp
    | cons d ds =>
      have ih' := ih (by simp)
      rw [List.getLastD_cons] at ih'
      simp only [List.dropLast_cons₂, List.cons_append, List.getLastD_cons]
      rw [ih']

theorem matchAttrTail_sound {l w2 q v t0 rest}
    (h : matchAttrTail l = some (w2, q, v, t0, rest)) :
    l = w2 ++ q ++ v ++ t0 :: rest := by
  unfold matchAttrTail at h
  have hsplit : l.takeWhile isWs ++ l.dropWhile isWs = l :=
    List.takeWhile_append_dropWhile isWs l
  cases hr3 : l.dropWhile isWs with
  | nil =>
    rw [hr3] at h
    simp only at h
    by_cases hw : l.takeWhile isWs = []
    · simp [hw] at h
    · simp only [hw, if_false] at h
      simp at h
      obtain ⟨h1, h2, h3, h4, h5⟩ := h
      subst h1; subst h2; subst h3; subst h4; subst h5
      conv_lhs => rw [← hsplit, hr3]
      rw [List.append_nil, ← dropLast_getLastD (l.takeWhile isWs) hw]
      simp
  | cons q0 r4 =>
    rw [hr3] at h
    by_cases hq : q0 = '"' || q0 = squote
    · simp only [hq, if_true] at h
      cases hlv : lazyVal r4 with
      | some x =>
        obtain ⟨v', t', rest'⟩ := x
        rw [hlv] at h
        simp at h
        obtain ⟨h1, h2, h3, h4, h5⟩ := h
        subst h1; subst h2; subst h3; subst h4; subst h5
        obtain ⟨he, _⟩ := lazyVal_sound hlv
        conv_lhs => rw [← hsplit, hr3, he]
        simp
      | none =>
        rw [hlv] at h
        simp at h
        obtain ⟨h1, h2, h3, h4, h5⟩ := h
        subst h1; subst h2; subst h3; subst h4; subst h5
        conv_lhs => rw [← hsplit, hr3]
        simp
    · simp only [hq, if_false] at h
      cases hlv : lazyVal (q0 :: r4) with
      | some x =>
        obtain ⟨v', t', rest'⟩ := x
        rw [hlv] at h
        simp at h
        obtain ⟨h1, h2, h3, h4, h5⟩ := h
        subst h1; subst h2; subst h3; subst h4; subst h5
        obtain ⟨he, _⟩ := lazyVal_sound hlv
        conv_lhs => rw [← hsplit, hr3, he]
        simp
      | none =>
        rw [hlv] at h
        by_cases hw : l.takeWhile isWs = []
        · simp [hw] at h
        · simp only [hw, if_false] at h
          simp at h
          obtain ⟨h1, h2, h3, h4, h5⟩ := h
          subst h1; subst h2; subst h3; subst h4; subst h5
          conv_lhs => rw [← hsplit, hr3]
          rw [← dropLast_getLastD (l.takeWhile isWs) hw]
          simp


theorem matchEqTail_sound {l w1 w2 q v t0 rest}
    (h : matchEqTail l = some (w1, w2, q, v, t0, rest)) :
    l = w1 ++ '=' :: (w2 ++ q ++ v ++ t0 :: rest) := by
  have hsplit : l.takeWhile isWs ++ l.dropWhile isWs = l :=
    List.takeWhile_append_dropWhile isWs l
  unfold matchEqTail at h
  split at h
  · rename_i r2 hr1
    split at h
    · rename_i w2' q' v' t' rest' hat
      simp at h
      obtain ⟨h1, h2, h3, h4, h5, h6⟩ := h
      subst h1; subst h2; subst h3; subst h4; subst h5; subst h6
      conv_lhs => rw [← hsplit, hr1, matchAttrTail_sound hat]
    · simp at h
  · simp at h

theorem matchEqTail_quoted (v t : List Char) (hv : ∀ c ∈ v, isTermCh c = false) :
    matchEqTail ('=' :: '"' :: (v ++ '"' :: t)) = some ([], [], ['"'], v, '"', t) := by
  have h1 : isWs '=' = false := by decide
  have h2 : isWs '"' = false := by decide
  unfold matchEqTail
  simp only [List.dropWhile_cons, h1, Bool.false_eq_true, if_false]
  unfold matchAttrTail
  simp only [List.takeWhile_cons, h2, Bool.false_eq_true, if_false, List.dropWhile_cons]
  rw [lazyVal_append v '"' t hv (by decide)]
  simp [List.takeWhile_cons, h1]

theorem matchOnAt_sound {l a b cg rest}
    (h : matchOnAt l = some (a, b, cg, rest)) :
    isWs a = true ∧ (∃ w, w ≠ [] ∧ b = 'o' :: 'n' :: w) ∧ l = a :: (b ++ cg ++ rest) := by
  unfold matchOnAt at h
  split at h
  · rename_i a0 r
    split at h
    · rename_i hcond
      split at h
      · rename_i w1 w2 q v t0 rest' hmt
        simp at h
        obtain ⟨h1, h2, h3, h4⟩ := h
        subst h1; subst h2; subst h3; subst h4
        simp only [Bool.and_eq_true, Bool.not_eq_true', List.isEmpty_eq_false] at hcond
        refine ⟨hcond.1, ⟨r.takeWhile isWord, hcond.2, rfl⟩, ?_⟩
        have hr : r.takeWhile isWord ++ r.dropWhile isWord = r :=
          List.takeWhile_append_dropWhile isWord r
        conv_lhs => rw [← hr, matchEqTail_sound hmt]
        simp
      · simp at h
    · simp at h
  · simp at h

theorem matchOnAt_quoted (w v t : List Char) (hw : w ≠ [])
    (hword : ∀ c ∈ w, isWord c = true) (hv : ∀ c ∈ v, isTermCh c = false) :
    matchOnAt (' ' :: 'o' :: 'n' :: (w ++ '=' :: '"' :: (v ++ '"' :: t)))
      = some (' ', 'o' :: 'n' :: w, '=' :: '"' :: (v ++ ['"']), t) := by
  simp only [matchOnAt]
  rw [takeWhile_all_append w '=' _ hword (by decide),
      dropWhile_all_append w '=' _ hword (by decide),
      matchEqTail_quoted v t hv]
  have hne : w.isEmpty = false := by
    cases w with
    | nil => exact absurd rfl hw
    | cons c cs => rfl
  simp [hne, isWs]

theorem matchSrcAt_sound {l a v t0 rest}
    (h : matchSrcAt l = some (a, v, t0, rest)) :
    l = a ++ v ++ t0 :: rest := by
  unfold matchSrcAt at h
  split at h
  · rename_i a0 r
    split at h
    · split at h
      · rename_i w1 w2 q v' t' rest' hmt
        simp at h
        obtain ⟨h1, h2, h3, h4⟩ := h
        subst h1; subst h2; subst h3; subst h4
        conv_lhs => rw [matchEqTail_sound hmt]
        simp
      · simp at h
    · simp at h
  · simp at h

theorem matchSrcAt_quoted (v t : List Char) (hv : ∀ c ∈ v, isTermCh c = false) :
    matchSrcAt (' ' :: 's' :: 'r' :: 'c' :: '=' :: '"' :: (v ++ '"' :: t))
      = some (' ' :: 's' :: 'r' :: 'c' :: '=' :: ['"'], v, '"', t) := by
  simp only [matchSrcAt]
  rw [matchEqTail_quoted v t hv]
  simp [isWs]

theorem matchHrefAt_sound {l a v t0 rest}
    (h : matchHrefAt l = some (a, v, t0, rest)) :
    l = a ++ v ++ t0 :: rest := by
  unfold matchHrefAt at h
  split at h
  · rename_i a0 r
    split at h
    · split at h
      · rename_i w1 w2 q v' t' rest' hmt
        simp at h
        obtain ⟨h1, h2, h3, h4⟩ := h
        subst h1; subst h2; subst h3; subst h4
        conv_lhs => rw [matchEqTail_sound hmt]
        simp
      · simp at h
    · simp at h
  · simp at h

theorem matchHrefAt_quoted (v t : List Char) (hv : ∀ c ∈ v, isTermCh c = false) :
    matchHrefAt (' ' :: 'h' :: 'r' :: 'e' :: 'f' :: '=' :: '"' :: (v ++ '"' :: t))
      = some (' ' :: 'h' :: 'r' :: 'e' :: 'f' :: '=' :: ['"'], v, '"', t) := by
  simp only [matchHrefAt]
  rw [matchEqTail_quoted v t hv]
  simp [isWs]

/-! ## Driver lemmas -/

/-- A step function consumes at least one character on a match. -/
def StepShrinks (step : List Char → Option (List Char × List Char)) : Prop :=
  ∀ l rep rest, step l = some (rep, rest) → rest.length < l.length

theorem replaceAllF_irrel (step : List Char → Option (List Char × List Char))
    (hs : StepShrinks step) :
    ∀ n1 n2 l, l.length ≤ n1 → l.length ≤ n2 →
      replaceAllF step n1 l = replaceAllF step n2 l := by
  intro n1
  induction n1 with
  | zero =>
    intro n2 l h1 h2
    have : l = [] := List.eq_nil_of_length_eq_zero (Nat.le_zero.mp h1)
    subst this
    cases n2 <;> rfl
  | succ n ih =>
    intro n2 l h1 h2
    cases l with
    | nil => cases n2 <;> rfl
    | cons c r =>
      cases n2 with
      | zero => simp at h2
      | succ n2' =>
        simp only [replaceAllF]
        cases hstep : step (c :: r) with
        | some x =>
          obtain ⟨rep, rest⟩ := x
          have hlt := hs _ _ _ hstep
          simp only [List.length_cons] at h1 h2 hlt
          show rep ++ replaceAllF step n rest = rep ++ replaceAllF step n2' rest
          rw [ih n2' rest (by omega) (by omega)]
        | none =>
          simp only [List.length_cons] at h1 h2
          show c :: replaceAllF step n r = c :: replaceAllF step n2' r
          rw [ih n2' r (by omega) (by omega)]

theorem replaceAll_nil (step : List Char → Option (List Char × List Char)) :
    replaceAll step [] = [] := rfl

theorem replaceAll_cons_some (step : List Char → Option (List Char × List Char))
    (hs : StepShrinks step) {c r rep rest} (h : step (c :: r) = some (rep, rest)) :
    replaceAll step (c :: r) = rep ++ replaceAll step rest := by
  unfold replaceAll
  simp only [List.length_cons, replaceAllF, h]
  have hlt := hs _ _ _ h
  simp only [List.length_cons] at hlt
  rw [replaceAllF_irrel step hs r.length rest.length rest (by omega) (by omega)]

theorem replaceAll_cons_none (step : List Char → Option (List Char × List Char))
    {c r} (h : step (c :: r) = none) :
    replaceAll step (c :: r) = c :: replaceAll step r := by
  unfold replaceAll
  simp only [List.length_cons, replaceAllF, h]

theorem stepOn_shrinks : StepShrinks stepOn := by
  intro l rep rest h
  unfold stepOn at h
  cases hm : matchOnAt l with
  | none => rw [hm] at h; simp at h
  | some x =>
    obtain ⟨a, b, cg, rest'⟩ := x
    rw [hm] at h
    simp at h
    obtain ⟨_, h2⟩ := h
    subst h2
    obtain ⟨_, _, hl⟩ := matchOnAt_sound hm
    rw [hl]
    simp
    omega

theorem stepSrc_shrinks (m : Manifest) (path : List String) (imageroot : String) :
    StepShrinks (stepSrc m path imageroot) := by
  intro l rep rest h
  cases hm : matchSrcAt l with
  | none => simp [stepSrc, hm] at h
  | some x =>
    obtain ⟨a, v, t0, rest'⟩ := x
    simp only [stepSrc, hm] at h
    have hr : rest' = rest := by
      cases hf : findByHref m (jsTrimStr (joinPath path (String.mk v))) with
      | some it => rw [hf] at h; simp at h; exact h.2
      | none => rw [hf] at h; simp at h; exact h.2
    subst hr
    rw [matchSrcAt_sound hm]
    simp
    omega

theorem stepHref_shrinks (m : Manifest) (path : List String) (linkroot : String) :
    StepShrinks (stepHref m path linkroot) := by
  intro l rep rest h
  cases hm : matchHrefAt l with
  | none => simp [stepHref, hm] at h
  | some x =>
    obtain ⟨a, v, t0, rest'⟩ := x
    simp only [stepHref, hm] at h
    have hr : rest' = rest := by
      split at h
      · simp at h; exact h.2
      · simp at h; exact h.2
    subst hr
    rw [matchHrefAt_sound hm]
    simp
    omega

/-! ## Store lemmas -/

theorem lookupM_some_mem {m : Manifest} {k : String} {it : Item}
    (h : lookupM m k = some it) : (k, it) ∈ m := by
  unfold lookupM at h
  cases hf : List.find? (fun kv => kv.1 = k) m with
  | none => rw [hf] at h; simp at h
  | some kv =>
    rw [hf] at h
    simp at h
    have hmem := List.mem_of_find?_eq_some hf
    have hp := List.find?_some hf
    simp at hp
    obtain ⟨k', it'⟩ := kv
    simp at hp h
    subst hp; subst h
    exact hmem

theorem lookupM_cons (k0 : String) (it0 : Item) (m : Manifest) (k : String) :
    lookupM ((k0, it0) :: m) k = if k0 = k then some it0 else lookupM m k := by
  simp only [lookupM, List.find?_cons]
  by_cases h : k0 = k
  · simp [h]
  · simp [h]

theorem assignM_cons (k0 : String) (it0 : Item) (m : Manifest) (key t : String)
    (o : Rat) (lv : Nat) :
    assignM ((k0, it0) :: m) key t o lv =
      (if k0 = key then (k0, { it0 with title := t, order := o, level := lv })
       else (k0, it0)) :: assignM m key t o lv := by
  by_cases h : k0 = key
  · subst h
    simp [assignM]
  · simp [assignM, h]

theorem lookupM_assignM {m : Manifest} {key t k : String} {o : Rat} {lv : Nat} {it' : Item}
    (h : lookupM (assignM m key t o lv) k = some it') :
    lookupM m k = some it' ∨
      (k = key ∧ ∃ it0, lookupM m k = some it0 ∧
        it' = { it0 with title := t, order := o, level := lv }) := by
  induction m with
  | nil => simp [assignM, lookupM] at h
  | cons kv m ih =>
    obtain ⟨k0, it0⟩ := kv
    rw [assignM_cons] at h
    by_cases hk : k0 = key
    · rw [if_pos hk] at h
      rw [lookupM_cons] at h
      by_cases hkk : k0 = k
      · rw [if_pos hkk] at h
        right
        refine ⟨hkk ▸ hk, it0, ?_, ?_⟩
        · rw [lookupM_cons, if_pos hkk]
        · injection h with h'; exact h'.symm
      · rw [if_neg hkk] at h
        rw [lookupM_cons, if_neg hkk]
        exact ih h
    · rw [if_neg hk] at h
      rw [lookupM_cons] at h
      by_cases hkk : k0 = k
      · rw [if_pos hkk] at h
        left
        rw [lookupM_cons, if_pos hkk]
        exact h
      · rw [if_neg hkk] at h
        rw [lookupM_cons, if_neg hkk]
        exact ih h

theorem lookupM_assignM_self {m : Manifest} {key t : String} {o : Rat} {lv : Nat} {it : Item}
    (h : lookupM m key = some it) :
    lookupM (assignM m key t o lv) key =
      some { it with title := t, order := o, level := lv } := by
  induction m with
  | nil => simp [lookupM] at h
  | cons kv m ih =>
    obtain ⟨k0, it0⟩ := kv
    rw [lookupM_cons] at h
    rw [assignM_cons]
    by_cases hk : k0 = key
    · rw [if_pos hk] at h
      injection h with h'
      subst h'
      rw [if_pos hk, lookupM_cons, if_pos hk]
    · rw [if_neg hk] at h
      rw [if_neg hk, lookupM_cons, if_neg hk]
      exact ih h

/-! ## Spine lemmas -/

theorem spineContents_eq_filterMap (m : Manifest) (refs : List (Option ItemrefAttrs)) :
    spineContents m refs = refs.filterMap (resolveItemref m) := by
  induction refs with
  | nil => rfl
  | cons r rs ih =>
    simp only [spineContents, List.filterMap_cons]
    cases h : resolveItemref m r with
    | some it => simp [h, ih]
    | none => simp [h, ih]

theorem resolveItemref_lookup {m : Manifest} {r : Option ItemrefAttrs} {e : Item}
    (h : resolveItemref m r = some e) : ∃ i, lookupM m i = some e := by
  unfold resolveItemref at h
  cases r with
  | none => simp at h
  | some a =>
    simp only [Option.some_bind] at h
    cases ha : a.idref with
    | none => rw [ha] at h; simp at h
    | some i =>
      rw [ha] at h
      simp only [Option.some_bind] at h
      exact ⟨i, h⟩

/-! ## Claim theorems -/

/-- C8: every entry of the Flow (`spine.contents`) is a ManifestItem
present in the Manifest: the contents equal the in-order `filterMap`
of per-`itemref` resolution (unresolvable identifiers silently
skipped, declared order preserved), every entry is the result of a
manifest-id lookup, and — when the manifest maps each key to an item
carrying that key as its id — each entry is found in the manifest
under its own id. -/
theorem C8_flow_resolves_in_manifest (m : Manifest) (node : SpineNode) :
    (parseSpine m node).contents = node.itemrefs.filterMap (resolveItemref m) ∧
    (∀ e ∈ (parseSpine m node).contents, ∃ i, lookupM m i = some e) ∧
    ((∀ kv ∈ m, kv.2.id = kv.1) →
      ∀ e ∈ (parseSpine m node).contents, lookupM m e.id = some e) := by
  have hc : (parseSpine m node).contents = spineContents m node.itemrefs := rfl
  refine ⟨hc.trans (spineContents_eq_filterMap m node.itemrefs), ?_, ?_⟩
  · intro e he
    rw [hc, spineContents_eq_filterMap] at he
    obtain ⟨r, _, hr⟩ := List.mem_filterMap.mp he
    exact resolveItemref_lookup hr
  · intro hwf e he
    rw [hc, spineContents_eq_filterMap] at he
    obtain ⟨r, _, hr⟩ := List.mem_filterMap.mp he
    obtain ⟨i, hi⟩ := resolveItemref_lookup hr
    have hmem := lookupM_some_mem hi
    have hid : e.id = i := hwf (i, e) hmem
    rw [hid]
    exact hi

/-- Witness for C8 at a concrete manifest and spine node. -/
theorem C8_flow_resolves_in_manifest_witness :
    (parseSpine [("a", { id := "a", href := "a.html" })]
        { toc := none, itemrefs := [some ⟨some "a"⟩, some ⟨some "missing"⟩] }).contents
      = [{ id := "a", href := "a.html" }] ∧
    lookupM [("a", { id := "a", href := "a.html" })]
        ({ id := "a", href := "a.html" } : Item).id
      = some { id := "a", href := "a.html" } := by
  constructor
  · exact ((C8_flow_resolves_in_manifest _ _).1).trans (by decide)
  · exact (C8_flow_resolves_in_manifest [("a", { id := "a", href := "a.html" })]
      { toc := none, itemrefs := [some ⟨some "a"⟩, some ⟨some "missing"⟩] }).2.2
      (by decide) _ (by decide)

/-- C5: `getChapterRaw` fails with "File not found" when the id is
absent from the manifest, fails with "Invalid mime type for chapter"
when the declared media type is neither the XHTML type nor the SVG
type, and otherwise (when the archive read succeeds) returns the
resource text. -/
theorem C5_getChapterRaw_spec (m : Manifest) (zip : Zip) (id : String) :
    (lookupM m id = none → getChapterRaw m zip id = Except.error "File not found") ∧
    (∀ it, lookupM m id = some it →
      it.mediaType ≠ "application/xhtml+xml" → it.mediaType ≠ "image/svg+xml" →
      getChapterRaw m zip id = Except.error "Invalid mime type for chapter") ∧
    (∀ it data, lookupM m id = some it →
      (it.mediaType = "application/xhtml+xml" ∨ it.mediaType = "image/svg+xml") →
      zip.read it.href = some data →
      getChapterRaw m zip id = Except.ok data) := by
  refine ⟨?_, ?_, ?_⟩
  · intro h
    simp [getChapterRaw, h]
  · intro it h h1 h2
    simp [getChapterRaw, h, h1, h2]
  · intro it data h hmt hread
    have hfalse : (it.mediaType ≠ "application/xhtml+xml" && it.mediaType ≠ "image/svg+xml") = false := by
      rcases hmt with h' | h' <;> simp [h']
    simp [getChapterRaw, h, hfalse, hread]
    tauto

/-- Witness for C5: a `text/css` manifest entry is rejected with the
invalid-media-type error, a missing id with "File not found", and an
XHTML entry is returned as text. -/
theorem C5_getChapterRaw_spec_witness :
    getChapterRaw [("css1", { id := "css1", href := "style.css", mediaType := "text/css" }),
        ("c1", { id := "c1", href := "c1.html", mediaType := "application/xhtml+xml" })]
      ⟨["c1.html"], fun n => if n = "c1.html" then some "<p>hi</p>" else none⟩ "css1"
      = Except.error "Invalid mime type for chapter" ∧
    getChapterRaw [("css1", { id := "css1", href := "style.css", mediaType := "text/css" }),
        ("c1", { id := "c1", href := "c1.html", mediaType := "application/xhtml+xml" })]
      ⟨["c1.html"], fun n => if n = "c1.html" then some "<p>hi</p>" else none⟩ "nope"
      = Except.error "File not found" ∧
    getChapterRaw [("css1", { id := "css1", href := "style.css", mediaType := "text/css" }),
        ("c1", { id := "c1", href := "c1.html", mediaType := "application/xhtml+xml" })]
      ⟨["c1.html"], fun n => if n = "c1.html" then some "<p>hi</p>" else none⟩ "c1"
      = Except.ok "<p>hi</p>" := by
  refine ⟨?_, ?_, ?_⟩
  · exact (C5_getChapterRaw_spec _ _ _).2.1
      { id := "css1", href := "style.css", mediaType := "text/css" }
      (by decide) (by decide) (by decide)
  · exact (C5_getChapterRaw_spec _ _ _).1 (by decide)
  · exact (C5_getChapterRaw_spec _ _ _).2.2
      { id := "c1", href := "c1.html", mediaType := "application/xhtml+xml" } "<p>hi</p>"
      (by decide) (by decide) (by simp)

/-- C6: when the navigation document's text fails to parse, `_parseTOC`
fails with the message "Parsing container XML failed in TOC: " followed
by the underlying parser's diagnostic. -/
theorem C6_toc_parse_error (zip : Zip) (navParse : String → Except String NavDoc)
    (m : Manifest) (tocItem : Item) (xml e : String)
    (hread : zip.read tocItem.href = some xml)
    (hparse : navParse xml = Except.error e) :
    parseTOCrun zip navParse m tocItem =
      Except.error ("Parsing container XML failed in TOC: " ++ e) := by
  simp [parseTOCrun, hread, hparse]

/-- Witness for C6 at a concrete archive and failing parser. -/
theorem C6_toc_parse_error_witness :
    parseTOCrun ⟨["toc.ncx"], fun n => if n = "toc.ncx" then some "<bad" else none⟩
        (fun _ => Except.error "Invalid character in entity name") []
        { id := "ncx", href := "toc.ncx" }
      = Except.error ("Parsing container XML failed in TOC: Invalid character in entity name") :=
  C6_toc_parse_error _ _ _ _ "<bad" "Invalid character in entity name" (by simp) rfl

/-- C4: once a qualifying rootfile declaration has yielded a path,
`_getRootFiles` matches that path case-insensitively against the
archive entry names: when no entry matches it fails with
"Rootfile not found from archive", and when an entry matches it
resolves to such an entry. -/
theorem C4_rootfile_archive_match (zip : Zip)
    (containerParse : String → Except String ContainerDoc) (cf data : String)
    (doc : ContainerDoc) (rv : RootfileVal) (fn : String)
    (h1 : findCI zip.names "meta-inf/container.xml" = some cf)
    (h2 : zip.read cf = some data)
    (h3 : containerParse (jsTrimStr (strLower data)) = Except.ok doc)
    (h4 : doc.rootfile = some rv)
    (h5 : rootfilePath rv = Except.ok fn) :
    ((∀ n ∈ zip.names, strLower n ≠ fn) →
      getRootFiles zip containerParse = Except.error "Rootfile not found from archive") ∧
    (∀ n0 ∈ zip.names, strLower n0 = fn →
      ∃ n, n ∈ zip.names ∧ strLower n = fn ∧
        getRootFiles zip containerParse = Except.ok n) := by
  constructor
  · intro hnone
    have hfind : findCI zip.names fn = none := by
      unfold findCI
      rw [List.find?_eq_none]
      intro n hn
      simp [hnone n hn]
    simp [getRootFiles, h1, h2, h3, h4, h5, hfind]
  · intro n0 hn0 hlow
    have hsome : (findCI zip.names fn).isSome := by
      unfold findCI
      rw [List.find?_isSome]
      exact ⟨n0, hn0, by simp [hlow]⟩
    cases hfind : findCI zip.names fn with
    | none => rw [hfind] at hsome; simp at hsome
    | some n =>
      refine ⟨n, List.mem_of_find?_eq_some hfind, ?_, ?_⟩
      · have := List.find?_some hfind
        simpa using this
      · simp [getRootFiles, h1, h2, h3, h4, h5, hfind]

/-- Witness for C4: a qualifying declaration whose path is absent from
the archive fails with the rootfile-not-found error; one whose path is
present (with different case) resolves. -/
theorem C4_rootfile_archive_match_witness :
    getRootFiles ⟨["mimetype", "META-INF/container.xml"],
        fun n => if n = "META-INF/container.xml" then some "<container>" else none⟩
      (fun _ => Except.ok { rootfile := some (.many [some ⟨some "application/oebps-package+xml", some "OPS/content.opf"⟩]) })
      = Except.error "Rootfile not found from archive" ∧
    getRootFiles ⟨["mimetype", "META-INF/container.xml", "OPS/Content.opf"],
        fun n => if n = "META-INF/container.xml" then some "<container>" else none⟩
      (fun _ => Except.ok { rootfile := some (.many [some ⟨some "application/oebps-package+xml", some "OPS/content.opf"⟩]) })
      = Except.ok "OPS/Content.opf" := by
  constructor
  · have h := C4_rootfile_archive_match
      (⟨["mimetype", "META-INF/container.xml"],
        fun n => if n = "META-INF/container.xml" then some "<container>" else none⟩ : Zip)
      (fun _ => Except.ok { rootfile := some (.many [some ⟨some "application/oebps-package+xml", some "OPS/content.opf"⟩]) })
      "META-INF/container.xml" "<container>"
      { rootfile := some (.many [some ⟨some "application/oebps-package+xml", some "OPS/content.opf"⟩]) }
      (.many [some ⟨some "application/oebps-package+xml", some "OPS/content.opf"⟩])
      "ops/content.opf" (by decide) (by decide) rfl rfl rfl
    exact h.1 (by decide)
  · have h := C4_rootfile_archive_match
      (⟨["mimetype", "META-INF/container.xml", "OPS/Content.opf"],
        fun n => if n = "META-INF/container.xml" then some "<container>" else none⟩ : Zip)
      (fun _ => Except.ok { rootfile := some (.many [some ⟨some "application/oebps-package+xml", some "OPS/content.opf"⟩]) })
      "META-INF/container.xml" "<container>"
      { rootfile := some (.many [some ⟨some "application/oebps-package+xml", some "OPS/content.opf"⟩]) }
      (.many [some ⟨some "application/oebps-package+xml", some "OPS/content.opf"⟩])
      "ops/content.opf" (by decide) (by decide) rfl rfl rfl
    obtain ⟨n, hmem, hlow, hres⟩ := h.2 "OPS/Content.opf" (by decide) (by decide)
    have hn : n = "OPS/Content.opf" := by
      simp only [List.mem_cons, List.not_mem_nil, or_false] at hmem
      rcases hmem with h1 | h1 | h1
      · rw [h1] at hlow; exact absurd hlow (by decide)
      · rw [h1] at hlow; exact absurd hlow (by decide)
      · exact h1
    rw [hn] at hres
    exact hres

/-- C7: for an archive with entries but no entry case-insensitively
named `mimetype`, `parse` fails with the mimetype-stage error and the
manifest is observably empty afterwards (only the `parse()` resets have
run; no state from a previous parse survives). -/
theorem C7_missing_mimetype (zip : Zip)
    (containerParse : String → Except String ContainerDoc)
    (packageParse : String → Except String PackageDoc)
    (navParse : String → Except String NavDoc) (st0 : St)
    (hne : zip.names ≠ [])
    (hmime : ∀ n ∈ zip.names, strLower n ≠ "mimetype") :
    (parseEpub zip containerParse packageParse navParse st0).2 =
      Except.error "No mimetype file in archive" ∧
    (parseEpub zip containerParse packageParse navParse st0).1.manifest = [] := by
  have hopen : openCheck zip = Except.ok () := by
    simp [openCheck, hne]
  have hfind : findCI zip.names "mimetype" = none := by
    unfold findCI
    rw [List.find?_eq_none]
    intro n hn
    simp [hmime n hn]
  have hmt : checkMimeType zip = Except.error "No mimetype file in archive" := by
    simp [checkMimeType, hfind]
  simp [parseEpub, hopen, hmt, resetSt]

/-- Witness for C7 at a concrete archive (entries present, no
`mimetype`). -/
theorem C7_missing_mimetype_witness :
    (parseEpub ⟨["META-INF/container.xml", "OPS/content.opf"], fun _ => none⟩
        (fun _ => Except.error "x") (fun _ => Except.error "x") (fun _ => Except.error "x")
        { manifest := [("old", { id := "old" })] }).2
      = Except.error "No mimetype file in archive" ∧
    (parseEpub ⟨["META-INF/container.xml", "OPS/content.opf"], fun _ => none⟩
        (fun _ => Except.error "x") (fun _ => Except.error "x") (fun _ => Except.error "x")
        { manifest := [("old", { id := "old" })] }).1.manifest = [] :=
  C7_missing_mimetype _ _ _ _ _ (by decide) (by decide)

/-! ## Split lemmas for fragments -/

theorem splitHash_no_hash (v : List Char) (h : ∀ c ∈ v, ¬c = '#') :
    splitHash v = [v] := by
  induction v with
  | nil => rfl
  | cons c cs ih =>
    have hc : ¬c = '#' := h c (by simp)
    simp only [splitHash, hc, if_false]
    rw [ih (fun x hx => h x (by simp [hx]))]

theorem splitHash_append_hash (p f : List Char) (h : ∀ c ∈ p, ¬c = '#') :
    splitHash (p ++ '#' :: f) = p :: splitHash f := by
  induction p with
  | nil => simp [splitHash]
  | cons c cs ih =>
    have hc : ¬c = '#' := h c (by simp)
    simp only [List.cons_append, splitHash, hc, if_false]
    rw [show cs.append ('#' :: f) = cs ++ '#' :: f from rfl,
      ih (fun x hx => h x (by simp [hx]))]

/-- C1 (amended): the handler neutralization is case-sensitive.  Part
one: a quoted attribute whose name is lowercase `on` followed by word
characters, preceded by whitespace, is rewritten by prefixing the name
with `skip-`, preserving the value and surrounding text, with the scan
resuming after the match.  Part two: every rewrite the step performs is
of exactly this shape — the matched name literally begins with
lowercase `on` and is preceded by a whitespace character, and the
rewrite only inserts `skip-` in front of the name. -/
theorem C1_skip_on_handlers :
    (∀ w v t : List Char, w ≠ [] → (∀ c ∈ w, isWord c = true) →
      (∀ c ∈ v, isTermCh c = false) →
      replaceAll stepOn (' ' :: 'o' :: 'n' :: (w ++ '=' :: '"' :: (v ++ '"' :: t)))
        = (' ' :: ("skip-".data ++ ('o' :: 'n' :: w) ++ ('=' :: '"' :: (v ++ ['"']))))
            ++ replaceAll stepOn t) ∧
    (∀ l rep rest : List Char, stepOn l = some (rep, rest) →
      ∃ a w cg, isWs a = true ∧ w ≠ [] ∧
        rep = a :: ("skip-".data ++ ('o' :: 'n' :: w) ++ cg) ∧
        l = a :: (('o' :: 'n' :: w) ++ cg ++ rest)) := by
  constructor
  · intro w v t hw hword hv
    have hs : stepOn (' ' :: 'o' :: 'n' :: (w ++ '=' :: '"' :: (v ++ '"' :: t)))
        = some (' ' :: ("skip-".data ++ ('o' :: 'n' :: w) ++ ('=' :: '"' :: (v ++ ['"']))), t) := by
      simp [stepOn, matchOnAt_quoted w v t hw hword hv]
    exact replaceAll_cons_some stepOn stepOn_shrinks hs
  · intro l rep rest h
    unfold stepOn at h
    cases hm : matchOnAt l with
    | none => rw [hm] at h; simp at h
    | some x =>
      obtain ⟨a, b, cg, rest'⟩ := x
      rw [hm] at h
      simp at h
      obtain ⟨hrep, hrest⟩ := h
      subst hrest
      obtain ⟨hws, ⟨w, hwne, hb⟩, hl⟩ := matchOnAt_sound hm
      subst hb
      exact ⟨a, w, cg, hws, hwne, hrep.symm, hl⟩

/-- Witness for C1 at a concrete handler attribute. -/
theorem C1_skip_on_handlers_witness :
    replaceAll stepOn
        (' ' :: 'o' :: 'n' :: ("click".data ++ '=' :: '"' :: ("alert(1)".data ++ '"' :: ">".data)))
      = " skip-onclick=\"alert(1)\">".data :=
  (C1_skip_on_handlers.1 "click".data "alert(1)".data ">".data
    (by decide) (by decide) (by decide)).trans (by decide)

/-- C1 counterexample: the claim's "case-insensitively" (and its
"no un-neutralized `on`-prefixed attributes in the output") fail on
the code.  An uppercase `Onclick` handler passes through `getChapter`'s
transformation untouched, and of two adjacent unquoted lowercase
handlers the second survives because the first match consumed the
separating whitespace. -/
theorem C1_counterexample :
    getChapterText [] [] "/images/" "/links/" "<p Onclick=\"x\">hi</p>"
      = "<p Onclick=\"x\">hi</p>" ∧
    getChapterText [] [] "/images/" "/links/" "<a onclick=a onload=b>"
      = "<a skip-onclick=a onload=b>" := by
  constructor
  · decide
  · decide

/-- C2 (amended): in `getChapter`'s reference rewriting, a `src`
attribute whose resolved value has a manifest entry becomes
`{imageroot}{manifestId}/{resolvedPath}`; one with no manifest entry
has the entire matched attribute text removed (the whole match —
leading whitespace, name, equals sign, opening quote, value and
terminator — is replaced by the empty string, not just the value
emptied); an `href` attribute whose fragment-stripped resolved value
has a manifest entry becomes `{linkroot}{manifestId}/{resolvedPath}#{fragment}`;
and one with no manifest entry is left unchanged. -/
theorem C2_reference_rewrites :
    (∀ (m : Manifest) (path : List String) (imageroot : String) (v t : List Char) (it : Item),
      (∀ c ∈ v, isTermCh c = false) →
      findByHref m (jsTrimStr (joinPath path (String.mk v))) = some it →
      replaceAll (stepSrc m path imageroot)
          (' ' :: 's' :: 'r' :: 'c' :: '=' :: '"' :: (v ++ '"' :: t))
        = (' ' :: 's' :: 'r' :: 'c' :: '=' :: ['"'])
            ++ (imageroot ++ it.id ++ "/" ++ jsTrimStr (joinPath path (String.mk v))).data
            ++ '"' :: replaceAll (stepSrc m path imageroot) t) ∧
    (∀ (m : Manifest) (path : List String) (imageroot : String) (v t : List Char),
      (∀ c ∈ v, isTermCh c = false) →
      findByHref m (jsTrimStr (joinPath path (String.mk v))) = none →
      replaceAll (stepSrc m path imageroot)
          (' ' :: 's' :: 'r' :: 'c' :: '=' :: '"' :: (v ++ '"' :: t))
        = replaceAll (stepSrc m path imageroot) t) ∧
    (∀ (m : Manifest) (path : List String) (linkroot : String) (p f t : List Char) (it : Item),
      (∀ c ∈ p, isTermCh c = false ∧ ¬c = '#') →
      (∀ c ∈ f, isTermCh c = false ∧ ¬c = '#') →
      findByHrefStem m (jsTrimStr (joinPath path (String.mk p))) = some it →
      replaceAll (stepHref m path linkroot)
          (' ' :: 'h' :: 'r' :: 'e' :: 'f' :: '=' :: '"' :: ((p ++ '#' :: f) ++ '"' :: t))
        = (' ' :: 'h' :: 'r' :: 'e' :: 'f' :: '=' :: ['"'])
            ++ (linkroot ++ it.id ++ "/"
                ++ (jsTrimStr (joinPath path (String.mk p)) ++ "#" ++ String.mk f)).data
            ++ '"' :: replaceAll (stepHref m path linkroot) t) ∧
    (∀ (m : Manifest) (path : List String) (linkroot : String) (v t : List Char),
      v ≠ [] → (∀ c ∈ v, isTermCh c = false ∧ ¬c = '#') →
      findByHrefStem m (jsTrimStr (joinPath path (String.mk v))) = none →
      replaceAll (stepHref m path linkroot)
          (' ' :: 'h' :: 'r' :: 'e' :: 'f' :: '=' :: '"' :: (v ++ '"' :: t))
        = (' ' :: 'h' :: 'r' :: 'e' :: 'f' :: '=' :: '"' :: (v ++ ['"']))
            ++ replaceAll (stepHref m path linkroot) t) := by
  refine ⟨?_, ?_, ?_, ?_⟩
  · intro m path imageroot v t it hv hfind
    have hs : stepSrc m path imageroot
        (' ' :: 's' :: 'r' :: 'c' :: '=' :: '"' :: (v ++ '"' :: t))
        = some ((' ' :: 's' :: 'r' :: 'c' :: '=' :: ['"'])
            ++ (imageroot ++ it.id ++ "/" ++ jsTrimStr (joinPath path (String.mk v))).data
            ++ ['"'], t) := by
      simp [stepSrc, matchSrcAt_quoted v t hv, hfind]
    have := replaceAll_cons_some _ (stepSrc_shrinks m path imageroot) hs
    rw [this]
    simp
  · intro m path imageroot v t hv hfind
    have hs : stepSrc m path imageroot
        (' ' :: 's' :: 'r' :: 'c' :: '=' :: '"' :: (v ++ '"' :: t)) = some ([], t) := by
      simp [stepSrc, matchSrcAt_quoted v t hv, hfind]
    have := replaceAll_cons_some _ (stepSrc_shrinks m path imageroot) hs
    rw [this]
    simp
  · intro m path linkroot p f t it hp hf hfind
    have hterm : ∀ c ∈ p ++ '#' :: f, isTermCh c = false := by
      intro c hc
      rcases List.mem_append.mp hc with h | h
      · exact (hp c h).1
      · rcases List.mem_cons.mp h with h' | h'
        · subst h'; decide
        · exact (hf c h').1
    have hsplit : splitHash (p ++ '#' :: f) = [p, f] := by
      rw [splitHash_append_hash p f (fun c hc => (hp c hc).2),
        splitHash_no_hash f (fun c hc => (hf c hc).2)]
    have hs : stepHref m path linkroot
        (' ' :: 'h' :: 'r' :: 'e' :: 'f' :: '=' :: '"' :: ((p ++ '#' :: f) ++ '"' :: t))
        = some ((' ' :: 'h' :: 'r' :: 'e' :: 'f' :: '=' :: ['"'])
            ++ (linkroot ++ it.id ++ "/"
                ++ (jsTrimStr (joinPath path (String.mk p)) ++ "#" ++ String.mk f)).data
            ++ ['"'], t) := by
      have hne : ¬(p ++ '#' :: f = []) := by simp
      simp only [stepHref, matchHrefAt_quoted (p ++ '#' :: f) t hterm, hsplit, hne, if_false,
        List.tail_cons, hfind, String.intercalate, String.intercalate.go, List.map_cons,
        List.map_nil]
      simp
    have := replaceAll_cons_some _ (stepHref_shrinks m path linkroot) hs
    rw [this]
    simp
  · intro m path linkroot v t hne hv hfind
    have hsplit : splitHash v = [v] := splitHash_no_hash v (fun c hc => (hv c hc).2)
    have hs : stepHref m path linkroot
        (' ' :: 'h' :: 'r' :: 'e' :: 'f' :: '=' :: '"' :: (v ++ '"' :: t))
        = some ((' ' :: 'h' :: 'r' :: 'e' :: 'f' :: '=' :: ['"']) ++ v ++ ['"'], t) := by
      simp only [stepHref, matchHrefAt_quoted v t (fun c hc => (hv c hc).1), hsplit, hne,
        if_false, List.tail_cons, hfind]
    have := replaceAll_cons_some _ (stepHref_shrinks m path linkroot) hs
    rw [this]
    simp

/-- Witness for C2: a resolvable `src` is rewritten under the image
root; an unresolvable one has the whole attribute removed. -/
theorem C2_reference_rewrites_witness :
    replaceAll (stepSrc [("img1", { id := "img1", href := "OPS/pic.jpg", mediaType := "image/jpeg" })]
        ["OPS"] "/images/")
        (' ' :: 's' :: 'r' :: 'c' :: '=' :: '"' :: ("pic.jpg".data ++ '"' :: ">".data))
      = " src=\"/images/img1/OPS/pic.jpg\">".data ∧
    replaceAll (stepSrc [] ["OPS"] "/images/")
        (' ' :: 's' :: 'r' :: 'c' :: '=' :: '"' :: ("missing.png".data ++ '"' :: ">".data))
      = ">".data := by
  constructor
  · exact (C2_reference_rewrites.1
      [("img1", { id := "img1", href := "OPS/pic.jpg", mediaType := "image/jpeg" })]
      ["OPS"] "/images/" "pic.jpg".data ">".data
      { id := "img1", href := "OPS/pic.jpg", mediaType := "image/jpeg" }
      (by decide) (by decide)).trans (by decide)
  · exact (C2_reference_rewrites.2.1 [] ["OPS"] "/images/" "missing.png".data ">".data
      (by decide) (by decide)).trans (by decide)

/-- C2 counterexample: for a `src` value with no manifest entry the
claim says "the attribute value is replaced with an empty string"
(which would leave `src=""` in the output); the code removes the whole
matched attribute text, so `<img src="missing.png">` renders as
`<img>`, not `<img src="">`. -/
theorem C2_counterexample :
    getChapterText [("img1", { id := "img1", href := "pic.jpg", mediaType := "image/jpeg" })] []
        "/images/" "/links/" "<img src=\"missing.png\">" = "<img>" ∧
    ("<img>" : String) ≠ "<img src=\"\">" := by
  constructor
  · decide
  · decide

/-! ## Walk lemmas -/

theorem walkNavMap_nil (path : List String) (idList : String → Option String)
    (level : Nat) (m : Manifest) :
    walkNavMap .nil path idList level m = ([], m) := rfl

theorem walkNavMap_capped (np : NavPoint) (tl : NavList) (path : List String)
    (idList : String → Option String) (level : Nat) (m : Manifest) (h : level > 7) :
    walkNavMap (.cons np tl) path idList level m = ([], m) := by
  cases np
  conv_lhs => rw [walkNavMap]
  simp [h]

theorem walkNavMap_cons (lbl : Option (Option String)) (po aid src : Option String) (ch tl : NavList)
    (path : List String) (idList : String → Option String) (level : Nat) (m : Manifest)
    (h : ¬level > 7) :
    walkNavMap (.cons (.mk lbl po aid src ch) tl) path idList level m =
      ((navSelf (.mk lbl po aid src ch) path idList level m).1
          ++ (walkNavMap ch path idList (level + 1)
                (navSelf (.mk lbl po aid src ch) path idList level m).2).1
          ++ (walkNavMap tl path idList level
                (walkNavMap ch path idList (level + 1)
                  (navSelf (.mk lbl po aid src ch) path idList level m).2).2).1,
        (walkNavMap tl path idList level
          (walkNavMap ch path idList (level + 1)
            (navSelf (.mk lbl po aid src ch) path idList level m).2).2).2) := by
  conv_lhs => rw [walkNavMap]
  simp [h]

theorem navSelf_cases (np : NavPoint) (path : List String)
    (idList : String → Option String) (level : Nat) (m : Manifest) :
    navSelf np path idList level m = ([], m) ∨
    (∃ key, idList (joinPath path (npHref0 np)) = some key ∧
      navSelf np path idList level m =
        ([TocRef.manifestRef key], assignM m key (npTitle np) (npOrder np) level)) ∨
    navSelf np path idList level m =
      ([TocRef.standalone (standaloneOf np path level)], m) := by
  obtain ⟨lbl, po, aid, src, ch⟩ := np
  unfold navSelf
  cases lbl with
  | none => left; rfl
  | some txt =>
    by_cases hh : npHref0 (.mk (some txt) po aid src ch) = ""
    · left; simp [hh]
    · simp only [hh, if_false]
      cases hid : idList (joinPath path (npHref0 (.mk (some txt) po aid src ch))) with
      | some key =>
        right; left
        exact ⟨key, rfl, by simp⟩
      | none =>
        right; right
        simp

theorem lookupM_assignM_key {m : Manifest} {key t : String} {o : Rat} {lv : Nat} {it' : Item}
    (h : lookupM (assignM m key t o lv) key = some it') :
    ∃ it0, lookupM m key = some it0 ∧
      it' = { it0 with title := t, order := o, level := lv } := by
  induction m with
  | nil => simp [assignM, lookupM] at h
  | cons kv m ih =>
    obtain ⟨k0, it0⟩ := kv
    rw [assignM_cons] at h
    by_cases hk : k0 = key
    · rw [if_pos hk] at h
      rw [lookupM_cons, if_pos hk] at h
      injection h with h'
      refine ⟨it0, ?_, h'.symm⟩
      rw [lookupM_cons, if_pos hk]
    · rw [if_neg hk] at h
      rw [lookupM_cons, if_neg hk] at h
      obtain ⟨it1, h1, h2⟩ := ih h
      refine ⟨it1, ?_, h2⟩
      rw [lookupM_cons, if_neg hk]
      exact h1

theorem itAssign_absorb (it : Item) (np1 np2 : NavPoint) (l1 l2 : Nat) :
    itAssign (itAssign it np1 l1) np2 l2 = itAssign it np2 l2 := rfl

theorem mut_trans {m1 m2 m3 : Manifest} {F1 F2 : List NavPoint}
    (h12 : ∀ k it', lookupM m2 k = some it' → lookupM m1 k = some it' ∨
      ∃ np ∈ F1, ∃ it0 lvl, lookupM m1 k = some it0 ∧ lvl ≤ 7 ∧ it' = itAssign it0 np lvl)
    (h23 : ∀ k it', lookupM m3 k = some it' → lookupM m2 k = some it' ∨
      ∃ np ∈ F2, ∃ it0 lvl, lookupM m2 k = some it0 ∧ lvl ≤ 7 ∧ it' = itAssign it0 np lvl) :
    ∀ k it', lookupM m3 k = some it' → lookupM m1 k = some it' ∨
      ∃ np ∈ F1 ++ F2, ∃ it0 lvl, lookupM m1 k = some it0 ∧ lvl ≤ 7 ∧
        it' = itAssign it0 np lvl := by
  intro k it' h3
  rcases h23 k it' h3 with h2 | ⟨np2, hnp2, it2, lvl2, h2, hl2, he2⟩
  · rcases h12 k it' h2 with h1 | ⟨np1, hnp1, it0, lvl1, h1, hl1, he1⟩
    · left; exact h1
    · right; exact ⟨np1, List.mem_append_left _ hnp1, it0, lvl1, h1, hl1, he1⟩
  · rcases h12 k it2 h2 with h1 | ⟨np1, hnp1, it0, lvl1, h1, hl1, he1⟩
    · right
      exact ⟨np2, List.mem_append_right _ hnp2, it2, lvl2, h1, hl2, he2⟩
    · right
      refine ⟨np2, List.mem_append_right _ hnp2, it0, lvl2, h1, hl2, ?_⟩
      rw [he2, he1, itAssign_absorb]

theorem mut_navSelf (np : NavPoint) (path : List String) (idList : String → Option String)
    (level : Nat) (m : Manifest) (hlvl : level ≤ 7) :
    ∀ k it', lookupM (navSelf np path idList level m).2 k = some it' →
      lookupM m k = some it' ∨
      ∃ np' ∈ [np], ∃ it0 lvl, lookupM m k = some it0 ∧ lvl ≤ 7 ∧
        it' = itAssign it0 np' lvl := by
  intro k it' h
  rcases navSelf_cases np path idList level m with hc | ⟨key, _, hc⟩ | hc
  · rw [hc] at h; left; exact h
  · rw [hc] at h
    rcases lookupM_assignM h with h1 | ⟨hk, it0, h1, h2⟩
    · left; exact h1
    · right
      exact ⟨np, by simp, it0, level, h1, hlvl, h2⟩
  · rw [hc] at h; left; exact h

theorem nlAll_cons (lbl : Option (Option String)) (po aid src : Option String) (ch tl : NavList) :
    nlAll (.cons (.mk lbl po aid src ch) tl) =
      NavPoint.mk lbl po aid src ch :: (nlAll ch ++ nlAll tl) := rfl

theorem walk_master : ∀ (n : Nat) (br : NavList), sizeOf br ≤ n →
    ∀ (path : List String) (idList : String → Option String) (level : Nat) (m : Manifest),
    (∀ k it', lookupM (walkNavMap br path idList level m).2 k = some it' →
        lookupM m k = some it' ∨
        ∃ np ∈ nlAll br, ∃ it0 lvl, lookupM m k = some it0 ∧ lvl ≤ 7 ∧
          it' = itAssign it0 np lvl) ∧
    (∀ k it', TocRef.manifestRef k ∈ (walkNavMap br path idList level m).1 →
        lookupM (walkNavMap br path idList level m).2 k = some it' →
        ∃ np ∈ nlAll br, ∃ it0 lvl, lvl ≤ 7 ∧ it' = itAssign it0 np lvl) ∧
    (∀ e, TocRef.standalone e ∈ (walkNavMap br path idList level m).1 →
        ∃ np ∈ nlAll br, ∃ lvl, lvl ≤ 7 ∧ e = standaloneOf np path lvl) := by
  intro n
  induction n with
  | zero =>
    intro br hsz
    cases br with
    | nil =>
      intro path idList level m
      refine ⟨fun k it' h => Or.inl h, ?_, ?_⟩
      · intro k it' hmem
        simp [walkNavMap_nil] at hmem
      · intro e hmem
        simp [walkNavMap_nil] at hmem
    | cons np tl =>
      exfalso
      cases np
      simp [NavList.cons.sizeOf_spec, NavPoint.mk.sizeOf_spec] at hsz
  | succ n ih =>
    intro br hsz path idList level m
    cases br with
    | nil =>
      refine ⟨fun k it' h => Or.inl h, ?_, ?_⟩
      · intro k it' hmem
        simp [walkNavMap_nil] at hmem
      · intro e hmem
        simp [walkNavMap_nil] at hmem
    | cons np tl =>
      obtain ⟨lbl, po, aid, src, ch⟩ := np
      by_cases hlvl : level > 7
      · rw [walkNavMap_capped _ _ _ _ _ _ hlvl]
        refine ⟨fun k it' h => Or.inl h, ?_, ?_⟩
        · intro k it' hmem
          simp at hmem
        · intro e hmem
          simp at hmem
      · have hch : sizeOf ch ≤ n := by
          simp [NavList.cons.sizeOf_spec, NavPoint.mk.sizeOf_spec] at hsz
          omega
        have htl : sizeOf tl ≤ n := by
          simp [NavList.cons.sizeOf_spec, NavPoint.mk.sizeOf_spec] at hsz
          omega
        rw [walkNavMap_cons lbl po aid src ch tl path idList level m hlvl]
        simp only
        obtain ⟨A1, B1, C1⟩ :=
          ih ch hch path idList (level + 1)
            (navSelf (.mk lbl po aid src ch) path idList level m).2
        obtain ⟨A2, B2, C2⟩ :=
          ih tl htl path idList level
            (walkNavMap ch path idList (level + 1)
              (navSelf (.mk lbl po aid src ch) path idList level m).2).2
        have base := mut_navSelf (.mk lbl po aid src ch) path idList level m (by omega)
        have step1 := mut_trans base A1
        have step2 := mut_trans step1 A2
        refine ⟨?_, ?_, ?_⟩
        · intro k it' h
          rcases step2 k it' h with h' | ⟨np', hnp', it0, lvl', h1, h2, h3⟩
          · left; exact h'
          · right
            refine ⟨np', ?_, it0, lvl', h1, h2, h3⟩
            rw [nlAll_cons]
            simpa [List.mem_append, or_assoc] using hnp'
        · intro k it' hmem hlook
          rcases List.mem_append.mp hmem with hm1 | hmR
          · rcases List.mem_append.mp hm1 with hmS | hmC
            · rcases navSelf_cases (.mk lbl po aid src ch) path idList level m
                with hc | ⟨key, _, hc⟩ | hc
              · rw [hc] at hmS
                simp at hmS
              · rw [hc] at hmS
                simp at hmS
                subst hmS
                rw [hc] at hlook
                simp only at hlook
                have mut12 := mut_trans A1 A2
                rw [hc] at mut12
                simp only at mut12
                rcases mut12 k it' hlook with h' | ⟨np', hnp', it0, lvl', h1, h2, h3⟩
                · obtain ⟨it0, h1, h2⟩ := lookupM_assignM_key h'
                  refine ⟨NavPoint.mk lbl po aid src ch, ?_, it0, level, by omega, h2⟩
                  rw [nlAll_cons]
                  simp
                · refine ⟨np', ?_, it0, lvl', h2, h3⟩
                  rw [nlAll_cons]
                  simp [List.mem_append.mp hnp']
              · rw [hc] at hmS
                simp at hmS
            · rcases A2 k it' hlook with h' | ⟨np', hnp', it0, lvl', h1, h2, h3⟩
              · obtain ⟨np', hnp', res⟩ := B1 k it' hmC h'
                refine ⟨np', ?_, res⟩
                rw [nlAll_cons]
                simp [hnp']
              · refine ⟨np', ?_, it0, lvl', h2, h3⟩
                rw [nlAll_cons]
                simp [hnp']
          · obtain ⟨np', hnp', res⟩ := B2 k it' hmR hlook
            refine ⟨np', ?_, res⟩
            rw [nlAll_cons]
            simp [hnp']
        · intro e hmem
          rcases List.mem_append.mp hmem with hm1 | hmR
          · rcases List.mem_append.mp hm1 with hmS | hmC
            · rcases navSelf_cases (.mk lbl po aid src ch) path idList level m
                with hc | ⟨key, _, hc⟩ | hc
              · rw [hc] at hmS
                simp at hmS
              · rw [hc] at hmS
                simp at hmS
              · rw [hc] at hmS
                simp at hmS
                refine ⟨NavPoint.mk lbl po aid src ch, ?_, level, by omega, hmS⟩
                rw [nlAll_cons]
                simp
            · obtain ⟨np', hnp', res⟩ := C1 e hmC
              refine ⟨np', ?_, res⟩
              rw [nlAll_cons]
              simp [hnp']
          · obtain ⟨np', hnp', res⟩ := C2 e hmR
            refine ⟨np', ?_, res⟩
            rw [nlAll_cons]
            simp [hnp']

/-- C3 (amended): the navigation walk is capped after eight nesting
levels: a call at level greater than 7 returns the empty list (and
performs no mutation), and every TocElement produced by the walk has
`level ≤ 7` — so a tree nested 9 levels deep yields entries only
through level 7, deeper nodes being silently absent, never an error. -/
theorem C3_depth_cap :
    (∀ (np : NavPoint) (tl : NavList) (path : List String)
        (idList : String → Option String) (level : Nat) (m : Manifest), level > 7 →
      walkNavMap (.cons np tl) path idList level m = ([], m)) ∧
    (∀ (br : NavList) (path : List String) (idList : String → Option String)
        (level : Nat) (m : Manifest),
      ∀ e ∈ walkNavMapToc br path idList level m, e.level ≤ 7) := by
  constructor
  · exact fun np tl path idList level m h => walkNavMap_capped np tl path idList level m h
  · intro br path idList level m e he
    obtain ⟨A, B, C⟩ := walk_master (sizeOf br) br (le_refl _) path idList level m
    unfold walkNavMapToc at he
    simp only [derefToc, List.mem_filterMap] at he
    obtain ⟨r, hr, hre⟩ := he
    cases r with
    | standalone e' =>
      simp at hre
      subst hre
      obtain ⟨np, _, lvl, hl, hee⟩ := C e' hr
      rw [hee]
      obtain ⟨l2, p2, a2, s2, c2⟩ := np
      simpa [standaloneOf] using hl
    | manifestRef k =>
      obtain ⟨np, _, it0, lvl, hl, hee⟩ := B k e hr hre
      rw [hee]
      simpa [itAssign] using hl

/-- Witness for C3: a capped call at level 8 returns the empty output,
and the deepest entry produced from a 9-deep chain satisfies the level
bound. -/
theorem C3_depth_cap_witness :
    walkNavMap (.cons (.mk (some (some "t")) none none (some "c.x") .nil) .nil)
        [] (fun _ => none) 8 [] = ([], []) ∧
    ({ id := "", href := "c.x", title := "t", order := 0, level := 7 } : Item).level ≤ 7 := by
  constructor
  · exact C3_depth_cap.1 _ _ [] (fun _ => none) 8 [] (by omega)
  · exact C3_depth_cap.2 (chainNP 9) [] (fun _ => none) 0 []
      { id := "", href := "c.x", title := "t", order := 0, level := 7 } (by decide)

/-- C3 counterexample: a navigation tree nested 9 levels deep yields
exactly eight entries, at levels 0 through 7 — there is no output at
level 8, contrary to the claim's "levels up to and including 8". -/
theorem C3_counterexample :
    ((walkNavMapToc (chainNP 9) [] (fun _ => none) 0 []).map (·.level))
      = [0, 1, 2, 3, 4, 5, 6, 7] := by decide

/-- C9 (amended): every TocElement produced by walkNavMap has a
non-negative nesting level and carries the order and title computed
from some nav-point of the tree — where the order is the declared
play-order parsed as a number, defaulting to 0 when the attribute is
missing, empty, or non-numeric (a declared negative numeral yields a
negative order), and the title is always a string. -/
theorem C9_toc_fields :
    (∀ (br : NavList) (path : List String) (idList : String → Option String)
        (level : Nat) (m : Manifest),
      ∀ e ∈ walkNavMapToc br path idList level m,
        0 ≤ e.level ∧ ∃ np ∈ nlAll br, e.order = npOrder np ∧ e.title = npTitle np) ∧
    (∀ po : Option String,
      po = none ∨ po = some "" ∨ (∃ s, po = some s ∧ jsNumber s = none) →
      jsOrder po = 0) := by
  constructor
  · intro br path idList level m e he
    refine ⟨Nat.zero_le _, ?_⟩
    obtain ⟨A, B, C⟩ := walk_master (sizeOf br) br (le_refl _) path idList level m
    unfold walkNavMapToc at he
    simp only [derefToc, List.mem_filterMap] at he
    obtain ⟨r, hr, hre⟩ := he
    cases r with
    | standalone e' =>
      simp at hre
      subst hre
      obtain ⟨np, hnp, lvl, _, hee⟩ := C e' hr
      refine ⟨np, hnp, ?_, ?_⟩ <;>
        (rw [hee]; obtain ⟨l2, p2, a2, s2, c2⟩ := np; simp [standaloneOf])
    | manifestRef k =>
      obtain ⟨np, hnp, it0, lvl, _, hee⟩ := B k e hr hre
      refine ⟨np, hnp, ?_, ?_⟩ <;> (rw [hee]; simp [itAssign])
  · intro po h
    rcases h with h | h | ⟨s, hs, hn⟩
    · rw [h]; rfl
    · rw [h]; simp [jsOrder]
    · rw [hs]
      by_cases he : s = ""
      · simp [jsOrder, he]
      · simp [jsOrder, he, hn]

/-- Witness for C9 at a concrete tree: a nav-point with a non-numeric
play-order contributes order 0, and `jsOrder` of a non-numeric
declaration is 0. -/
theorem C9_toc_fields_witness :
    (0 ≤ ({ id := "", href := "ch1.html", title := "T", order := 0, level := 0 } : Item).level ∧
      ∃ np ∈ nlAll (.cons (.mk (some (some "T")) (some "x1z") none (some "ch1.html") .nil) .nil),
        ({ id := "", href := "ch1.html", title := "T", order := 0, level := 0 } : Item).order
            = npOrder np ∧
        ({ id := "", href := "ch1.html", title := "T", order := 0, level := 0 } : Item).title
            = npTitle np) ∧
    jsOrder (some "x1z") = 0 := by
  constructor
  · exact C9_toc_fields.1
      (.cons (.mk (some (some "T")) (some "x1z") none (some "ch1.html") .nil) .nil)
      [] (fun _ => none) 0 [] _ (by decide)
  · exact C9_toc_fields.2 (some "x1z") (Or.inr (Or.inr ⟨"x1z", rfl, by decide⟩))

/-- C9 counterexample: a declared play-order of "-5" is parsed by
`Number(...)` to -5 (not NaN), so the produced TocElement's order is
negative, contradicting "order is a non-negative number". -/
theorem C9_counterexample :
    ((walkNavMapToc (.cons (.mk (some (some "T")) (some "-5") none (some "ch1.html") .nil) .nil)
        [] (fun _ => none) 0 []).map (·.order)) = [-5] ∧
    (∃ e ∈ walkNavMapToc (.cons (.mk (some (some "T")) (some "-5") none (some "ch1.html") .nil) .nil)
        [] (fun _ => none) 0 [], e.order < 0) := by
  constructor
  · decide
  · decide

/-- C10: when nav-points resolve to a manifest entry, `walkNavMap`
does not copy the entry — it assigns title/order/level onto the shared
manifest object and pushes a reference to that same object.  For two
nav-points resolving to the same manifest id, the output is two
references to the one object, the manifest store carries the
last-assigned title/order/level, and both dereferenced TOC entries are
that same item with the second nav-point's fields. -/
theorem C10_walk_aliases_manifest (t1 t2 s1 s2 : String) (po1 po2 aid1 aid2 : Option String)
    (path : List String) (idList : String → Option String) (m : Manifest)
    (k : String) (it : Item)
    (h1 : jsTrimStr s1 ≠ "") (h2 : jsTrimStr s2 ≠ "")
    (hid1 : idList (joinPath path (jsTrimStr s1)) = some k)
    (hid2 : idList (joinPath path (jsTrimStr s2)) = some k)
    (hit : lookupM m k = some it) :
    walkNavMap (.cons (.mk (some (some t1)) po1 aid1 (some s1) .nil)
        (.cons (.mk (some (some t2)) po2 aid2 (some s2) .nil) .nil)) path idList 0 m
      = ([TocRef.manifestRef k, TocRef.manifestRef k],
         assignM (assignM m k (jsTrimStr t1) (jsOrder po1) 0) k
           (jsTrimStr t2) (jsOrder po2) 0) ∧
    walkNavMapToc (.cons (.mk (some (some t1)) po1 aid1 (some s1) .nil)
        (.cons (.mk (some (some t2)) po2 aid2 (some s2) .nil) .nil)) path idList 0 m
      = [{ it with title := jsTrimStr t2, order := jsOrder po2, level := 0 },
         { it with title := jsTrimStr t2, order := jsOrder po2, level := 0 }] := by
  have e1 : navSelf (.mk (some (some t1)) po1 aid1 (some s1) .nil) path idList 0 m
      = ([TocRef.manifestRef k], assignM m k (jsTrimStr t1) (jsOrder po1) 0) := by
    unfold navSelf
    simp only [npHref0, h1, if_false, npTitle, npOrder]
    rw [hid1]
  have e2 : navSelf (.mk (some (some t2)) po2 aid2 (some s2) .nil) path idList 0
        (assignM m k (jsTrimStr t1) (jsOrder po1) 0)
      = ([TocRef.manifestRef k],
         assignM (assignM m k (jsTrimStr t1) (jsOrder po1) 0) k
           (jsTrimStr t2) (jsOrder po2) 0) := by
    unfold navSelf
    simp only [npHref0, h2, if_false, npTitle, npOrder]
    rw [hid2]
  have hwalk : walkNavMap (.cons (.mk (some (some t1)) po1 aid1 (some s1) .nil)
        (.cons (.mk (some (some t2)) po2 aid2 (some s2) .nil) .nil)) path idList 0 m
      = ([TocRef.manifestRef k, TocRef.manifestRef k],
         assignM (assignM m k (jsTrimStr t1) (jsOrder po1) 0) k
           (jsTrimStr t2) (jsOrder po2) 0) := by
    rw [walkNavMap_cons _ _ _ _ _ _ path idList 0 m (by omega)]
    rw [e1]
    simp only [walkNavMap_nil]
    rw [walkNavMap_cons _ _ _ _ _ _ path idList 0
        (assignM m k (jsTrimStr t1) (jsOrder po1) 0) (by omega)]
    rw [e2]
    simp [walkNavMap_nil]
  refine ⟨hwalk, ?_⟩
  have hl1 : lookupM (assignM m k (jsTrimStr t1) (jsOrder po1) 0) k
      = some { it with title := jsTrimStr t1, order := jsOrder po1, level := 0 } :=
    lookupM_assignM_self hit
  have hl2 := @lookupM_assignM_self (assignM m k (jsTrimStr t1) (jsOrder po1) 0) k
    (jsTrimStr t2) (jsOrder po2) 0
    { it with title := jsTrimStr t1, order := jsOrder po1, level := 0 } hl1
  unfold walkNavMapToc
  rw [hwalk]
  simp [derefToc, hl2]

/-- Witness for C10 at a concrete manifest and two nav-points sharing
one manifest id. -/
theorem C10_walk_aliases_manifest_witness :
    walkNavMapToc (.cons (.mk (some (some "A")) (some "1") none (some "ch1.html") .nil)
        (.cons (.mk (some (some "B")) (some "2") none (some "ch1.html") .nil) .nil))
      [] (idListOf [("ch1", { id := "ch1", href := "ch1.html", mediaType := "application/xhtml+xml" })])
      0 [("ch1", { id := "ch1", href := "ch1.html", mediaType := "application/xhtml+xml" })]
      = [{ id := "ch1", href := "ch1.html", mediaType := "application/xhtml+xml",
           title := "B", order := 2, level := 0 },
         { id := "ch1", href := "ch1.html", mediaType := "application/xhtml+xml",
           title := "B", order := 2, level := 0 }] :=
  ((C10_walk_aliases_manifest "A" "B" "ch1.html" "ch1.html" (some "1") (some "2") none none
    [] (idListOf [("ch1", { id := "ch1", href := "ch1.html", mediaType := "application/xhtml+xml" })])
    [("ch1", { id := "ch1", href := "ch1.html", mediaType := "application/xhtml+xml" })]
    "ch1" { id := "ch1", href := "ch1.html", mediaType := "application/xhtml+xml" }
    (by decide) (by decide) (by decide) (by decide) (by decide)).2).trans (by decide)
